import Mathlib

/-!
# sonarcloud-exporter: the collector

A shallow embedding of `lib/collector/collector.go`, and of the lines of
`cmd/sonarcloud-exporter/main.go` that build the collector, with theorems about them.

Conventions of the embedding.

* A Go `string` is a Lean `String`; prefix tests and slicing act on the list of
  characters (for well-formed UTF-8 text this agrees with Go's byte-wise view).
* `float64` is a type parameter `F` with the two literals `0` and `1` that the
  collector writes; the collector never does arithmetic on a value.
* A channel `chan<- prometheus.Metric` is the list of metrics sent on it so far,
  oldest first; sending appends at the end.
* A call that can panic returns `Except String _`; `.error` is the panic.
* Library calls whose code is outside the repository and which cannot be
  written down exactly (`strconv.ParseFloat`, `(*prometheus.Desc).String`) are
  the fields of a parameter `Lib F`.
* Logging (`log.Info`, `log.Error`, `log.Errorf`) writes to the process log and
  is not part of what the collector emits; it is left out and marked in
  comments at the places where the source logs.
* `c.client.GetStats()` is a network call; its outcome `(stats, err)` is an
  argument of `Collect`.
* The functions `Collect`, `collectProjectInfo`, `collectMeasurements` and
  `collectQualityGate` take the collector as a value. The functions `CollectSt`,
  `collectProjectInfoSt`, `collectMeasurementsSt` and `collectQualityGateSt` are
  the same Go functions with the collector behind the pointer `c` carried as
  state, for the statements about what a call leaves behind.
-/

namespace SonarcloudExporter

/-! ## Go maps `map[string]bool` -/

/-- A Go `map[string]bool`: each key is absent (`none`) or bound to a value. -/
def MapStringBool : Type := String → Option Bool

namespace MapStringBool

/-- The empty map, `make(map[string]bool)`. -/
def make : MapStringBool := fun _ => none

/-- The read `m[k]`: the bound value, or the zero value `false` when `k` is absent. -/
def index (m : MapStringBool) (k : String) : Bool := (m k).getD false

/-- The write `m[k] = v`. -/
def assign (m : MapStringBool) (k : String) (v : Bool) : MapStringBool :=
  fun k' => if k' = k then some v else m k'

end MapStringBool

/-! ## The `strings` package -/

/-- The Go function `strings.HasPrefix`: `len(s) >= len(p) && s[:len(p)] == p`. -/
def HasPrefix (s p : String) : Bool :=
  decide (s.data.length ≥ p.data.length) && decide (s.data.take p.data.length = p.data)

/-- The Go function `strings.TrimPrefix`: `s[len(p):]` when `s` has the prefix `p`, else `s`. -/
def TrimPrefix (s p : String) : String :=
  if HasPrefix s p then ⟨s.data.drop p.data.length⟩ else s

/-! ## The part of `prometheus` the collector uses -/

/-- A descriptor `prometheus.Desc` as built by `prometheus.NewDesc`. -/
structure Desc where
  fqName : String
  help : String
  variableLabels : List String
  constLabels : List (String × String)
  deriving DecidableEq, Repr

/-- The constructor `prometheus.NewDesc(fqName, help, variableLabels, constLabels)`. -/
def NewDesc (fqName help : String) (variableLabels : List String)
    (constLabels : List (String × String)) : Desc :=
  { fqName := fqName, help := help, variableLabels := variableLabels, constLabels := constLabels }

/-- The Go type `prometheus.ValueType`. -/
inductive ValueType where
  | CounterValue
  | GaugeValue
  | UntypedValue
  deriving DecidableEq, Repr

/-- A constant metric: what `prometheus.NewConstMetric` returns. -/
structure Metric (F : Type) where
  desc : Desc
  valType : ValueType
  val : F
  labelValues : List String
  deriving DecidableEq, Repr

/-- The channel `chan<- prometheus.Metric`, as the list of metrics sent so far. -/
abbrev Chan (F : Type) : Type := List (Metric F)

/-- The send `ch <- m`. -/
def Chan.send {F : Type} (ch : Chan F) (m : Metric F) : Chan F := ch ++ [m]

/-- The Go function `prometheus.MustNewConstMetric`: it panics when the number of
label values differs from the number of variable labels of the descriptor. (Its
other check, that each label value is valid UTF-8, holds for every Lean `String`;
the descriptors of `New` are built from valid literal names and carry no error.) -/
def MustNewConstMetric {F : Type} (desc : Desc) (valueType : ValueType) (value : F)
    (labelValues : List String) : Except String (Metric F) :=
  if labelValues.length = desc.variableLabels.length then
    .ok { desc := desc, valType := valueType, val := value, labelValues := labelValues }
  else
    .error "inconsistent label cardinality"

/-- The library calls taken as parameters.
`ParseFloat s bitSize` is `strconv.ParseFloat`: the value it returns and the
error (`none` is Go's `nil`). `DescString d` is `(*prometheus.Desc).String`,
which `fmt.Sprintf` calls for the verb `%s`. -/
structure Lib (F : Type) where
  ParseFloat : String → Nat → F × Option String
  DescString : Desc → String

/-! ## The `client` package -/

/-- Modelled from the spec: the element type of `Stats.Projects`, declared in
`lib/client`; its four string fields are the ones `collectProjectInfo` reads. -/
structure Project where
  Name : String
  Qualifier : String
  Key : String
  Organization : String
  deriving DecidableEq, Repr

/-- Modelled from the spec: the element type of `Stats.Measurements`, declared in
`lib/client`; its three string fields are the ones `collectMeasurements` reads. -/
structure Measurement where
  Key : String
  Metric : String
  Value : String
  deriving DecidableEq, Repr

/-- Modelled from the spec: the element type of `Stats.QualityGate`, declared in
`lib/client`; its three string fields are the ones `collectQualityGate` reads. -/
structure QualityGateEntry where
  Key : String
  Organization : String
  Value : String
  deriving DecidableEq, Repr

/-- Modelled from the spec: the snapshot type `client.Stats`, declared in
`lib/client`: three ordered sequences. -/
structure Stats where
  Projects : List Project
  Measurements : List Measurement
  QualityGate : List QualityGateEntry
  deriving DecidableEq, Repr

/-! ## `collector.go` -/

/-- The struct `Collector`. The field `client` is left out: the outcome of
`c.client.GetStats()` is an argument of `Collect`. -/
structure Collector where
  up : Desc
  projectInfo : Desc
  linesOfCode : Desc
  codeCoverage : Desc
  vulnerabilities : Desc
  bugs : Desc
  codeSmells : Desc
  qualityGate : Desc
  enabledMetrics : MapStringBool

/-- The local `allMetrics` of `New`. -/
def allMetrics : List String :=
  ["up", "projectInfo", "linesOfCode", "codeCoverage", "vulnerabilities", "bugs",
    "codeSmells", "qualityGate"]

/-- The constructor `New(c, metricNames...)`. -/
def New (metricNames : List String) : Collector :=
  -- log.Info("Creating collector")
  let enabledMetrics : MapStringBool := MapStringBool.make
  let metricNames :=
    if metricNames.length = 1 ∧ metricNames[0]? = some "all" then allMetrics else metricNames
  let enabledMetrics := metricNames.foldl (fun m name => m.assign name true) enabledMetrics
  { up := NewDesc "sonarcloud_up" "Whether Sonarcloud scrape was successful" [] []
    projectInfo := NewDesc "sonarcloud_project_info" "General information about projects"
      ["project_name", "project_qualifier", "project_key", "project_organization"] []
    linesOfCode := NewDesc "sonarcloud_lines_of_code"
      "Lines of code within a project in SonarCloud" ["project_key"] []
    codeCoverage := NewDesc "sonarcloud_code_coverage"
      "Code coverage within a project in SonarCloud" ["project_key"] []
    vulnerabilities := NewDesc "sonarcloud_vulnerabilities"
      "Amount of vulnerabilities within a project in SonarCloud" ["project_key"] []
    bugs := NewDesc "sonarcloud_bugs" "Amount of bugs within a project in SonarCloud"
      ["project_key"] []
    codeSmells := NewDesc "sonarcloud_code_smells"
      "Amount of code smells within a project in SonarCloud" ["project_key"] []
    qualityGate := NewDesc "sonarcloud_quality_gate"
      "Quality gate status of a project in SonarCloud" ["service"] []
    enabledMetrics := enabledMetrics }

/-- The method `Describe`: the descriptors it sends, in order. -/
def Describe (c : Collector) (ch : List Desc) : List Desc :=
  ch ++ [c.up] ++ [c.projectInfo] ++ [c.linesOfCode] ++ [c.codeCoverage] ++ [c.bugs]
    ++ [c.vulnerabilities] ++ [c.codeSmells]

section Passes

variable {F : Type} [Zero F] [One F]

/-- The function `collectProjectInfo`: one iteration of its loop per project. -/
def collectProjectInfo (c : Collector) (ch : Chan F) (stats : Stats) :
    Except String (Chan F) :=
  stats.Projects.foldlM
    (fun ch project => do
      let m ← MustNewConstMetric c.projectInfo ValueType.GaugeValue (1 : F)
        [project.Name, project.Qualifier, project.Key, project.Organization]
      pure (ch.send m))
    ch

/-- The body of the loop of `collectMeasurements`, for one entry. -/
def collectMeasurementsBody (L : Lib F) (c : Collector) (ch : Chan F)
    (measurement : Measurement) : Except String (Chan F) :=
  let (value, _err) := L.ParseFloat measurement.Value 64
  -- if err != nil: log.Error(err); control goes on to the switch
  if measurement.Metric = "ncloc" ∧ c.enabledMetrics.index "linesOfCode" = true then do
    let m ← MustNewConstMetric c.linesOfCode ValueType.GaugeValue value [measurement.Key]
    pure (ch.send m)
  else if measurement.Metric = "coverage" ∧ c.enabledMetrics.index "codeCoverage" = true then do
    let m ← MustNewConstMetric c.codeCoverage ValueType.GaugeValue value [measurement.Key]
    pure (ch.send m)
  else if measurement.Metric = "vulnerabilities"
      ∧ c.enabledMetrics.index "vulnerabilities" = true then do
    let m ← MustNewConstMetric c.vulnerabilities ValueType.GaugeValue value [measurement.Key]
    pure (ch.send m)
  else if measurement.Metric = "bugs" ∧ c.enabledMetrics.index "bugs" = true then do
    let m ← MustNewConstMetric c.bugs ValueType.GaugeValue value [measurement.Key]
    pure (ch.send m)
  else if measurement.Metric = "violations" ∧ c.enabledMetrics.index "codeSmells" = true then do
    let m ← MustNewConstMetric c.codeSmells ValueType.GaugeValue value [measurement.Key]
    pure (ch.send m)
  else
    pure ch

/-- The function `collectMeasurements`. -/
def collectMeasurements (L : Lib F) (c : Collector) (ch : Chan F) (stats : Stats) :
    Except String (Chan F) :=
  stats.Measurements.foldlM (collectMeasurementsBody L c) ch

/-- The body of the loop of `collectQualityGate`, for one entry; the loop state
is the map `processedMetrics` and the channel. -/
def collectQualityGateBody (L : Lib F) (c : Collector) (st : MapStringBool × Chan F)
    (measurement : QualityGateEntry) : Except String (MapStringBool × Chan F) :=
  let processedMetrics := st.1
  let ch := st.2
  let organization := measurement.Organization ++ "_"
  let trimmedKey := TrimPrefix measurement.Key organization
  -- fmt.Sprintf("%s:%s", c.qualityGate, trimmedKey)
  let metricKey := L.DescString c.qualityGate ++ ":" ++ trimmedKey
  if processedMetrics.index metricKey = true then
    pure (processedMetrics, ch) -- continue
  else
    let (value, err) := L.ParseFloat measurement.Value 64
    if err.isSome then
      -- log.Errorf("Error parsing metric value: %v", err)
      pure (processedMetrics, ch) -- continue
    else do
      let m ← MustNewConstMetric c.qualityGate ValueType.GaugeValue value [trimmedKey]
      pure (processedMetrics.assign metricKey true, ch.send m)

/-- The function `collectQualityGate`. -/
def collectQualityGate (L : Lib F) (c : Collector) (ch : Chan F) (stats : Stats) :
    Except String (Chan F) := do
  let processedMetrics : MapStringBool := MapStringBool.make
  let st ← stats.QualityGate.foldlM (collectQualityGateBody L c) (processedMetrics, ch)
  pure st.2

/-- The method `Collect`; `r` is the outcome `(stats, err)` of `c.client.GetStats()`. -/
def Collect (L : Lib F) (c : Collector) (ch : Chan F) (r : Stats × Option String) :
    Except String (Chan F) :=
  -- log.Info("Running scrape")
  match r with
  | (_, some _err) => do
    -- log.Error(err)
    let m ← MustNewConstMetric c.up ValueType.GaugeValue (0 : F) []
    pure (ch.send m)
  | (stats, none) => do
    let m ← MustNewConstMetric c.up ValueType.GaugeValue (1 : F) []
    let ch := ch.send m
    let ch ← if c.enabledMetrics.index "projectInfo" = true then
        collectProjectInfo c ch stats else pure ch
    let ch ← collectMeasurements L c ch stats
    let ch ← if c.enabledMetrics.index "qualityGate" = true then
        collectQualityGate L c ch stats else pure ch
    -- log.Info("Scrape Complete")
    pure ch

end Passes

/-! ## `strings.Split` and `main.go` -/

/-- The loop of `strings.Split` for a non-empty separator, on lists of characters.
`cur` holds the characters of the field being read, newest first; `skip` counts
the characters of a separator just found that are still to be passed over. -/
def splitLoop (sep : List Char) : Nat → List Char → List Char → List (List Char)
  | _, cur, [] => [cur.reverse]
  | skip + 1, cur, _ :: cs => splitLoop sep skip cur cs
  | 0, cur, c :: cs =>
    if sep.isPrefixOf (c :: cs) then cur.reverse :: splitLoop sep (sep.length - 1) [] cs
    else splitLoop sep 0 (c :: cur) cs

/-- The Go function `strings.Split(s, sep)`: the substrings of `s` between the
occurrences of `sep`, taken from the left; with an empty `sep` it returns the
characters of `s` one by one. -/
def Split (s sep : String) : List String :=
  if sep.data = [] then s.data.map (fun c => String.mk [c])
  else (splitLoop sep.data 0 [] s.data).map String.mk

/-- The function `getDefaultEnv` of `main.go`; `getenv` is `os.Getenv`, which
returns the empty string for a variable that is not set. -/
def getDefaultEnv (getenv : String → String) (key defaultValue : String) : String :=
  let value := getenv key
  if value = "" then defaultValue else value

/-- The collector `coll` that `main` builds from `config.MetricsName`:
`strings.Split(config.MetricsName, ",")` passed to `collector.New`. -/
def main_coll (MetricsName : String) : Collector :=
  let metricNames := Split MetricsName ","
  New metricNames

/-! ## The quality-gate pass keyed by the trimmed key

This pass is not in the source. It is `collectQualityGate` with one change: the
dedup map is keyed by the trimmed key alone. It is the pass the source is compared
with in the refinement claim.
-/

section ByTrimmedKey

variable {F : Type}

/-- The body of the loop of `collectQualityGateByTrimmedKey`, for one entry. -/
def collectQualityGateByTrimmedKeyBody (L : Lib F) (c : Collector)
    (st : MapStringBool × Chan F) (measurement : QualityGateEntry) :
    Except String (MapStringBool × Chan F) :=
  let processedMetrics := st.1
  let ch := st.2
  let organization := measurement.Organization ++ "_"
  let trimmedKey := TrimPrefix measurement.Key organization
  if processedMetrics.index trimmedKey = true then
    pure (processedMetrics, ch)
  else
    let (value, err) := L.ParseFloat measurement.Value 64
    if err.isSome then
      pure (processedMetrics, ch)
    else do
      let m ← MustNewConstMetric c.qualityGate ValueType.GaugeValue value [trimmedKey]
      pure (processedMetrics.assign trimmedKey true, ch.send m)

/-- The quality-gate pass with the dedup map keyed by the trimmed key alone. -/
def collectQualityGateByTrimmedKey (L : Lib F) (c : Collector) (ch : Chan F)
    (stats : Stats) : Except String (Chan F) := do
  let processedMetrics : MapStringBool := MapStringBool.make
  let st ← stats.QualityGate.foldlM (collectQualityGateByTrimmedKeyBody L c)
    (processedMetrics, ch)
  pure st.2

end ByTrimmedKey

/-! ## The receiver as state

`Collect` and the three passes get the collector through the pointer `c`, so a
call can write to the fields of the collector and to the entries of its map
`enabledMetrics`, and a later call would read what was written. The functions
of this section are the same Go functions with that memory made explicit: the
state is the collector behind `c` together with the channel; every read of a
field of `c` is a read of the current state, and each function returns the state
it leaves behind.
-/

section ReceiverState

variable {F : Type} [Zero F] [One F]

/-- The function `collectProjectInfo`, on the state (collector, channel). -/
def collectProjectInfoSt (st : Collector × Chan F) (stats : Stats) :
    Except String (Collector × Chan F) :=
  stats.Projects.foldlM
    (fun st project => do
      let c := st.1
      let ch := st.2
      let m ← MustNewConstMetric c.projectInfo ValueType.GaugeValue (1 : F)
        [project.Name, project.Qualifier, project.Key, project.Organization]
      pure (c, ch.send m))
    st

/-- The body of the loop of `collectMeasurements`, on the state (collector, channel). -/
def collectMeasurementsStBody (L : Lib F) (st : Collector × Chan F)
    (measurement : Measurement) : Except String (Collector × Chan F) :=
  let c := st.1
  let ch := st.2
  let (value, _err) := L.ParseFloat measurement.Value 64
  -- if err != nil: log.Error(err); control goes on to the switch
  if measurement.Metric = "ncloc" ∧ c.enabledMetrics.index "linesOfCode" = true then do
    let m ← MustNewConstMetric c.linesOfCode ValueType.GaugeValue value [measurement.Key]
    pure (c, ch.send m)
  else if measurement.Metric = "coverage" ∧ c.enabledMetrics.index "codeCoverage" = true then do
    let m ← MustNewConstMetric c.codeCoverage ValueType.GaugeValue value [measurement.Key]
    pure (c, ch.send m)
  else if measurement.Metric = "vulnerabilities"
      ∧ c.enabledMetrics.index "vulnerabilities" = true then do
    let m ← MustNewConstMetric c.vulnerabilities ValueType.GaugeValue value [measurement.Key]
    pure (c, ch.send m)
  else if measurement.Metric = "bugs" ∧ c.enabledMetrics.index "bugs" = true then do
    let m ← MustNewConstMetric c.bugs ValueType.GaugeValue value [measurement.Key]
    pure (c, ch.send m)
  else if measurement.Metric = "violations" ∧ c.enabledMetrics.index "codeSmells" = true then do
    let m ← MustNewConstMetric c.codeSmells ValueType.GaugeValue value [measurement.Key]
    pure (c, ch.send m)
  else
    pure (c, ch)

/-- The function `collectMeasurements`, on the state (collector, channel). -/
def collectMeasurementsSt (L : Lib F) (st : Collector × Chan F) (stats : Stats) :
    Except String (Collector × Chan F) :=
  stats.Measurements.foldlM (collectMeasurementsStBody L) st

/-- The body of the loop of `collectQualityGate`, on the state (collector, the
local map `processedMetrics`, channel). -/
def collectQualityGateStBody (L : Lib F) (st : Collector × MapStringBool × Chan F)
    (measurement : QualityGateEntry) : Except String (Collector × MapStringBool × Chan F) :=
  let c := st.1
  let processedMetrics := st.2.1
  let ch := st.2.2
  let organization := measurement.Organization ++ "_"
  let trimmedKey := TrimPrefix measurement.Key organization
  -- fmt.Sprintf("%s:%s", c.qualityGate, trimmedKey)
  let metricKey := L.DescString c.qualityGate ++ ":" ++ trimmedKey
  if processedMetrics.index metricKey = true then
    pure (c, processedMetrics, ch) -- continue
  else
    let (value, err) := L.ParseFloat measurement.Value 64
    if err.isSome then
      -- log.Errorf("Error parsing metric value: %v", err)
      pure (c, processedMetrics, ch) -- continue
    else do
      let m ← MustNewConstMetric c.qualityGate ValueType.GaugeValue value [trimmedKey]
      pure (c, processedMetrics.assign metricKey true, ch.send m)

/-- The function `collectQualityGate`, on the state (collector, channel): the map
`processedMetrics` is made at the start of the call and dropped at its end. -/
def collectQualityGateSt (L : Lib F) (st : Collector × Chan F) (stats : Stats) :
    Except String (Collector × Chan F) := do
  let processedMetrics : MapStringBool := MapStringBool.make
  let st ← stats.QualityGate.foldlM (collectQualityGateStBody L)
    (st.1, processedMetrics, st.2)
  pure (st.1, st.2.2)

/-- The method `Collect`, on the state (collector, channel); `r` is the outcome
`(stats, err)` of `c.client.GetStats()`. -/
def CollectSt (L : Lib F) (st : Collector × Chan F) (r : Stats × Option String) :
    Except String (Collector × Chan F) :=
  -- log.Info("Running scrape")
  match r with
  | (_, some _err) => do
    -- log.Error(err)
    let m ← MustNewConstMetric st.1.up ValueType.GaugeValue (0 : F) []
    pure (st.1, st.2.send m)
  | (stats, none) => do
    let m ← MustNewConstMetric st.1.up ValueType.GaugeValue (1 : F) []
    let st := (st.1, st.2.send m)
    let st ← if st.1.enabledMetrics.index "projectInfo" = true then
        collectProjectInfoSt st stats else pure st
    let st ← collectMeasurementsSt L st stats
    let st ← if st.1.enabledMetrics.index "qualityGate" = true then
        collectQualityGateSt L st stats else pure st
    -- log.Info("Scrape Complete")
    pure st

end ReceiverState

/-! ## A concrete instance of the library parameters -/

/-- The number written by a list of decimal digits. -/
def decimalValue (cs : List Char) : ℚ :=
  ((cs.foldl (fun acc ch => 10 * acc + (ch.toNat - 48)) 0 : Nat) : ℚ)

/-- An instance of `Lib` for closed examples. On a non-empty string of decimal
digits `ParseFloat` returns the number written and no error; on any other string
it returns `0` and a syntax error, as `strconv.ParseFloat` does on a string that
is not a number. `DescString` prints the name of the descriptor. -/
def decimalLib : Lib ℚ where
  ParseFloat s _ :=
    if s.data ≠ [] ∧ s.data.all Char.isDigit = true then (decimalValue s.data, none)
    else (0, some "invalid syntax")
  DescString d := "Desc(" ++ d.fqName ++ ")"

/-! ## What each pass appends, as lists

These functions are not in the source. They describe what one pass appends to
the channel and are related to the loops of the source by the lemmas
`collectProjectInfo_New`, `collectMeasurements_New` and `collectQualityGate_New`.
-/

section Outputs

variable {F : Type} [Zero F] [One F]

/-- The metric `collectProjectInfo` sends for one project. -/
def projectInfoMetric (c : Collector) (project : Project) : Metric F :=
  { desc := c.projectInfo, valType := ValueType.GaugeValue, val := 1,
    labelValues := [project.Name, project.Qualifier, project.Key, project.Organization] }

/-- The metrics one iteration of the loop of `collectMeasurements` sends: none or one. -/
def measurementOut (L : Lib F) (c : Collector) (measurement : Measurement) : List (Metric F) :=
  let value := (L.ParseFloat measurement.Value 64).1
  if measurement.Metric = "ncloc" ∧ c.enabledMetrics.index "linesOfCode" = true then
    [{ desc := c.linesOfCode, valType := ValueType.GaugeValue, val := value,
       labelValues := [measurement.Key] }]
  else if measurement.Metric = "coverage" ∧ c.enabledMetrics.index "codeCoverage" = true then
    [{ desc := c.codeCoverage, valType := ValueType.GaugeValue, val := value,
       labelValues := [measurement.Key] }]
  else if measurement.Metric = "vulnerabilities"
      ∧ c.enabledMetrics.index "vulnerabilities" = true then
    [{ desc := c.vulnerabilities, valType := ValueType.GaugeValue, val := value,
       labelValues := [measurement.Key] }]
  else if measurement.Metric = "bugs" ∧ c.enabledMetrics.index "bugs" = true then
    [{ desc := c.bugs, valType := ValueType.GaugeValue, val := value,
       labelValues := [measurement.Key] }]
  else if measurement.Metric = "violations" ∧ c.enabledMetrics.index "codeSmells" = true then
    [{ desc := c.codeSmells, valType := ValueType.GaugeValue, val := value,
       labelValues := [measurement.Key] }]
  else
    []

/-- The key of a quality-gate entry after `strings.TrimPrefix`. -/
def trimmedKeyOf (e : QualityGateEntry) : String :=
  TrimPrefix e.Key (e.Organization ++ "_")

/-- The metrics the loop of `collectQualityGate` sends on the entries `es` when
`seen` lists the trimmed keys already sent. -/
def qualityGateOut (L : Lib F) (c : Collector) :
    List String → List QualityGateEntry → List (Metric F)
  | _, [] => []
  | seen, e :: es =>
    if trimmedKeyOf e ∈ seen then qualityGateOut L c seen es
    else if (L.ParseFloat e.Value 64).2.isSome then qualityGateOut L c seen es
    else
      { desc := c.qualityGate, valType := ValueType.GaugeValue,
        val := (L.ParseFloat e.Value 64).1, labelValues := [trimmedKeyOf e] }
        :: qualityGateOut L c (trimmedKeyOf e :: seen) es

end Outputs

/-! ## Lemmas on the constructor -/

theorem New_cond_iff (metricNames : List String) :
    (metricNames.length = 1 ∧ metricNames[0]? = some "all") ↔ metricNames = ["all"] := by
  constructor
  · rintro ⟨hlen, h0⟩
    match metricNames, hlen, h0 with
    | [a], _, h0 =>
      simp at h0
      simp [h0]
  · rintro rfl
    simp

theorem foldl_assign_apply (names : List String) (m : MapStringBool) (k : String) :
    (names.foldl (fun m name => m.assign name true) m) k
      = if k ∈ names then some true else m k := by
  induction names generalizing m with
  | nil => simp
  | cons a rest ih =>
    rw [List.foldl_cons, ih]
    by_cases hk : k ∈ rest
    · simp [hk]
    · by_cases hka : k = a
      · simp [hka, MapStringBool.assign]
      · simp [hk, hka, MapStringBool.assign]

theorem New_enabledMetrics_all :
    (New ["all"]).enabledMetrics
      = allMetrics.foldl (fun m name => m.assign name true) MapStringBool.make := by
  rfl

theorem New_enabledMetrics_explicit (metricNames : List String) (h : metricNames ≠ ["all"]) :
    (New metricNames).enabledMetrics
      = metricNames.foldl (fun m name => m.assign name true) MapStringBool.make := by
  have hc : ¬ (metricNames.length = 1 ∧ metricNames[0]? = some "all") := by
    rw [New_cond_iff]; exact h
  simp only [New, hc, if_false]

theorem New_index_explicit (metricNames : List String) (h : metricNames ≠ ["all"])
    (k : String) : (New metricNames).enabledMetrics.index k = true ↔ k ∈ metricNames := by
  rw [New_enabledMetrics_explicit metricNames h]
  unfold MapStringBool.index
  rw [foldl_assign_apply]
  by_cases hk : k ∈ metricNames
  · simp [hk]
  · simp [hk, MapStringBool.make]

@[simp] theorem New_up (n : List String) :
    (New n).up = NewDesc "sonarcloud_up" "Whether Sonarcloud scrape was successful" [] [] := rfl

@[simp] theorem New_projectInfo (n : List String) :
    (New n).projectInfo = NewDesc "sonarcloud_project_info" "General information about projects"
      ["project_name", "project_qualifier", "project_key", "project_organization"] [] := rfl

@[simp] theorem New_linesOfCode (n : List String) :
    (New n).linesOfCode = NewDesc "sonarcloud_lines_of_code"
      "Lines of code within a project in SonarCloud" ["project_key"] [] := rfl

@[simp] theorem New_codeCoverage (n : List String) :
    (New n).codeCoverage = NewDesc "sonarcloud_code_coverage"
      "Code coverage within a project in SonarCloud" ["project_key"] [] := rfl

@[simp] theorem New_vulnerabilities (n : List String) :
    (New n).vulnerabilities = NewDesc "sonarcloud_vulnerabilities"
      "Amount of vulnerabilities within a project in SonarCloud" ["project_key"] [] := rfl

@[simp] theorem New_bugs (n : List String) :
    (New n).bugs = NewDesc "sonarcloud_bugs" "Amount of bugs within a project in SonarCloud"
      ["project_key"] [] := rfl

@[simp] theorem New_codeSmells (n : List String) :
    (New n).codeSmells = NewDesc "sonarcloud_code_smells"
      "Amount of code smells within a project in SonarCloud" ["project_key"] [] := rfl

@[simp] theorem New_qualityGate (n : List String) :
    (New n).qualityGate = NewDesc "sonarcloud_quality_gate"
      "Quality gate status of a project in SonarCloud" ["service"] [] := rfl

/-! ## The loops of the passes -/

section PassLemmas

variable {F : Type}

theorem foldlM_ok_append {α β : Type} (body : List β → α → Except String (List β))
    (g : α → List β) (h : ∀ ch a, body ch a = Except.ok (ch ++ g a)) (l : List α)
    (ch : List β) : l.foldlM body ch = Except.ok (ch ++ l.flatMap g) := by
  induction l generalizing ch with
  | nil => simp [pure, Except.pure]
  | cons a rest ih =>
    rw [List.foldlM_cons, h]
    show rest.foldlM body (ch ++ g a) = _
    rw [ih, List.flatMap_cons, List.append_assoc]

theorem collectProjectInfo_New [One F] (n : List String) (ch : Chan F) (stats : Stats) :
    collectProjectInfo (New n) ch stats
      = Except.ok (ch ++ stats.Projects.map (projectInfoMetric (New n))) := by
  unfold collectProjectInfo
  rw [foldlM_ok_append _ (fun project => [projectInfoMetric (New n) project])]
  · congr 2
    induction stats.Projects with
    | nil => rfl
    | cons a rest ih => simp [List.flatMap_cons, ih]
  · intro ch project
    rfl

theorem collectMeasurementsBody_New (L : Lib F) (n : List String) (ch : Chan F)
    (measurement : Measurement) :
    collectMeasurementsBody L (New n) ch measurement
      = Except.ok (ch ++ measurementOut L (New n) measurement) := by
  unfold collectMeasurementsBody measurementOut
  simp only [New_linesOfCode, New_codeCoverage, New_vulnerabilities, New_bugs, New_codeSmells]
  split_ifs <;> first | rfl | simp [pure, Except.pure]

theorem collectMeasurements_New (L : Lib F) (n : List String) (ch : Chan F) (stats : Stats) :
    collectMeasurements L (New n) ch stats
      = Except.ok (ch ++ stats.Measurements.flatMap (measurementOut L (New n))) := by
  unfold collectMeasurements
  exact foldlM_ok_append _ _ (collectMeasurementsBody_New L n) _ _

theorem index_assign (m : MapStringBool) (a b : String) :
    (m.assign a true).index b = if b = a then true else m.index b := by
  unfold MapStringBool.index MapStringBool.assign
  by_cases h : b = a <;> simp [h]

theorem metricKey_injective (d k k' : String) (h : d ++ ":" ++ k = d ++ ":" ++ k') :
    k = k' := by
  have h2 := congrArg String.data h
  simp only [String.data_append, List.append_assoc] at h2
  exact String.ext (List.append_cancel_left (List.append_cancel_left h2))

theorem collectQualityGate_loop (L : Lib F) (n : List String) (es : List QualityGateEntry)
    (pm : MapStringBool) (ch : Chan F) (seen : List String)
    (hInv : ∀ k, pm.index (L.DescString (New n).qualityGate ++ ":" ++ k) = true ↔ k ∈ seen) :
    ∃ pm', es.foldlM (collectQualityGateBody L (New n)) (pm, ch)
      = Except.ok (pm', ch ++ qualityGateOut L (New n) seen es) := by
  induction es generalizing pm ch seen with
  | nil => exact ⟨pm, by simp [qualityGateOut, pure, Except.pure]⟩
  | cons e rest ih =>
    rw [List.foldlM_cons]
    by_cases hseen : trimmedKeyOf e ∈ seen
    · have hidx := (hInv (trimmedKeyOf e)).mpr hseen
      have hbody : collectQualityGateBody L (New n) (pm, ch) e = Except.ok (pm, ch) := by
        unfold collectQualityGateBody
        simp only [trimmedKeyOf] at hidx
        simp only [hidx, if_true]
        rfl
      rw [hbody]
      obtain ⟨pm', h⟩ := ih pm ch seen hInv
      refine ⟨pm', ?_⟩
      show rest.foldlM _ (pm, ch) = _
      rw [h]
      simp [qualityGateOut, hseen]
    · have hidx : ¬ pm.index (L.DescString (New n).qualityGate ++ ":" ++ trimmedKeyOf e) = true :=
        fun h => hseen ((hInv _).mp h)
      by_cases herr : (L.ParseFloat e.Value 64).2.isSome = true
      · have hbody : collectQualityGateBody L (New n) (pm, ch) e = Except.ok (pm, ch) := by
          unfold collectQualityGateBody
          simp only [trimmedKeyOf] at hidx
          simp only [hidx, if_false, herr, if_true]
          rfl
        rw [hbody]
        obtain ⟨pm', h⟩ := ih pm ch seen hInv
        refine ⟨pm', ?_⟩
        show rest.foldlM _ (pm, ch) = _
        rw [h]
        simp [qualityGateOut, hseen, herr]
      · have hbody : collectQualityGateBody L (New n) (pm, ch) e
            = Except.ok (pm.assign (L.DescString (New n).qualityGate ++ ":" ++ trimmedKeyOf e) true,
                ch ++ [{ desc := (New n).qualityGate, valType := ValueType.GaugeValue,
                         val := (L.ParseFloat e.Value 64).1,
                         labelValues := [trimmedKeyOf e] }]) := by
          unfold collectQualityGateBody
          simp only [trimmedKeyOf] at hidx
          simp only [hidx, if_false, herr]
          rfl
        rw [hbody]
        have hInv' : ∀ k, (pm.assign (L.DescString (New n).qualityGate ++ ":" ++ trimmedKeyOf e)
            true).index (L.DescString (New n).qualityGate ++ ":" ++ k) = true
              ↔ k ∈ trimmedKeyOf e :: seen := by
          intro k
          rw [index_assign]
          by_cases hk : k = trimmedKeyOf e
          · simp [hk]
          · have hne : ¬ (L.DescString (New n).qualityGate ++ ":" ++ k
                = L.DescString (New n).qualityGate ++ ":" ++ trimmedKeyOf e) :=
              fun h => hk (metricKey_injective _ _ _ h)
            simp only [hne, if_false, List.mem_cons, hk, false_or]
            exact hInv k
        obtain ⟨pm', h⟩ := ih _ (ch ++ [Metric.mk (New n).qualityGate ValueType.GaugeValue
          (L.ParseFloat e.Value 64).1 [trimmedKeyOf e]]) _ hInv'
        refine ⟨pm', ?_⟩
        show rest.foldlM _ (_, _) = _
        rw [h]
        simp [qualityGateOut, hseen, herr]

theorem collectQualityGate_New (L : Lib F) (n : List String) (ch : Chan F) (stats : Stats) :
    collectQualityGate L (New n) ch stats
      = Except.ok (ch ++ qualityGateOut L (New n) [] stats.QualityGate) := by
  unfold collectQualityGate
  obtain ⟨pm', h⟩ := collectQualityGate_loop L n stats.QualityGate MapStringBool.make ch []
    (by intro k; simp [MapStringBool.index, MapStringBool.make])
  show (List.foldlM (collectQualityGateBody L (New n)) (MapStringBool.make, ch)
    stats.QualityGate >>= fun st => pure st.2) = _
  rw [h]
  rfl

theorem Collect_New_failure [Zero F] [One F] (L : Lib F) (n : List String) (ch : Chan F)
    (stats : Stats) (err : String) :
    Collect L (New n) ch (stats, some err)
      = Except.ok (ch ++ [{ desc := (New n).up, valType := ValueType.GaugeValue, val := 0,
                            labelValues := [] }]) := by
  rfl

theorem Collect_New_success [Zero F] [One F] (L : Lib F) (n : List String) (ch : Chan F)
    (stats : Stats) :
    Collect L (New n) ch (stats, none)
      = Except.ok (ch ++ ({ desc := (New n).up, valType := ValueType.GaugeValue, val := 1,
                            labelValues := [] } ::
          ((if (New n).enabledMetrics.index "projectInfo" = true then
              stats.Projects.map (projectInfoMetric (New n)) else [])
            ++ (stats.Measurements.flatMap (measurementOut L (New n))
            ++ (if (New n).enabledMetrics.index "qualityGate" = true then
              qualityGateOut L (New n) [] stats.QualityGate else []))))) := by
  unfold Collect
  simp only [New_up]
  have hup : (MustNewConstMetric (NewDesc "sonarcloud_up"
      "Whether Sonarcloud scrape was successful" [] []) ValueType.GaugeValue (1 : F) [])
      = Except.ok (Metric.mk (NewDesc "sonarcloud_up" "Whether Sonarcloud scrape was successful"
          [] []) ValueType.GaugeValue 1 []) := rfl
  simp only [hup, collectProjectInfo_New, collectMeasurements_New, collectQualityGate_New,
    Chan.send, bind, Except.bind, pure, Except.pure]
  by_cases hp : (New n).enabledMetrics.index "projectInfo" = true <;>
    by_cases hq : (New n).enabledMetrics.index "qualityGate" = true <;>
    simp [hp, hq]

theorem desc_of_mem_measurementOut (L : Lib F) (c : Collector) (e : Measurement)
    (m : Metric F) (h : m ∈ measurementOut L c e) :
    m.desc ∈ [c.linesOfCode, c.codeCoverage, c.vulnerabilities, c.bugs, c.codeSmells] := by
  unfold measurementOut at h
  split_ifs at h <;> simp at h <;> simp [h]

theorem desc_of_mem_qualityGateOut (L : Lib F) (c : Collector) (seen : List String)
    (es : List QualityGateEntry) (m : Metric F) (h : m ∈ qualityGateOut L c seen es) :
    m.desc = c.qualityGate := by
  induction es generalizing seen with
  | nil => simp [qualityGateOut] at h
  | cons e rest ih =>
    unfold qualityGateOut at h
    split_ifs at h
    · exact ih _ h
    · exact ih _ h
    · rcases List.mem_cons.mp h with h | h
      · rw [h]
      · exact ih _ h

theorem collectMeasurements_split (L : Lib F) (n : List String) (ch : Chan F)
    (projects : List Project) (qg : List QualityGateEntry) (pre post : List Measurement)
    (entry : Measurement) :
    collectMeasurements L (New n) ch ⟨projects, pre, qg⟩
        = Except.ok (ch ++ pre.flatMap (measurementOut L (New n)))
    ∧ collectMeasurements L (New n) [] ⟨projects, post, qg⟩
        = Except.ok (post.flatMap (measurementOut L (New n)))
    ∧ collectMeasurements L (New n) ch ⟨projects, pre ++ entry :: post, qg⟩
        = Except.ok (ch ++ pre.flatMap (measurementOut L (New n))
            ++ measurementOut L (New n) entry ++ post.flatMap (measurementOut L (New n))) := by
  refine ⟨collectMeasurements_New L n ch _, ?_, ?_⟩
  · rw [collectMeasurements_New]; simp
  · rw [collectMeasurements_New]
    simp [List.flatMap_append, List.flatMap_cons, List.append_assoc]

theorem label_of_mem_qualityGateOut (L : Lib F) (c : Collector) (seen : List String)
    (es : List QualityGateEntry) (m : Metric F) (h : m ∈ qualityGateOut L c seen es) :
    ∃ k, m.labelValues = [k] ∧ k ∉ seen := by
  induction es generalizing seen with
  | nil => simp [qualityGateOut] at h
  | cons e rest ih =>
    unfold qualityGateOut at h
    split_ifs at h with h₁ h₂
    · exact ih _ h
    · exact ih _ h
    · rcases List.mem_cons.mp h with h | h
      · exact ⟨trimmedKeyOf e, by rw [h], h₁⟩
      · obtain ⟨k, hk, hns⟩ := ih _ h
        exact ⟨k, hk, fun hmem => hns (List.mem_cons_of_mem _ hmem)⟩

theorem qualityGateOut_labels_nodup (L : Lib F) (c : Collector) (seen : List String)
    (es : List QualityGateEntry) :
    ((qualityGateOut L c seen es).map (fun m => m.labelValues)).Nodup := by
  induction es generalizing seen with
  | nil => simp [qualityGateOut]
  | cons e rest ih =>
    unfold qualityGateOut
    split_ifs with h₁ h₂
    · exact ih _
    · exact ih _
    · rw [List.map_cons, List.nodup_cons]
      refine ⟨?_, ih _⟩
      intro hmem
      obtain ⟨m, hm, hlab⟩ := List.mem_map.mp hmem
      obtain ⟨k, hk, hns⟩ := label_of_mem_qualityGateOut L c _ rest m hm
      rw [hk] at hlab
      have hke : k = trimmedKeyOf e := by simpa using hlab
      exact hns (by rw [hke]; exact List.mem_cons_self _ _)

theorem qualityGateOut_skip (L : Lib F) (c : Collector) (pre post : List QualityGateEntry)
    (e : QualityGateEntry) (seen : List String)
    (h : trimmedKeyOf e ∈ seen
      ∨ ∃ e' ∈ pre, trimmedKeyOf e' = trimmedKeyOf e ∧ (L.ParseFloat e'.Value 64).2 = none) :
    qualityGateOut L c seen (pre ++ e :: post) = qualityGateOut L c seen (pre ++ post) := by
  induction pre generalizing seen with
  | nil =>
    rcases h with h | ⟨e', he', _⟩
    · simp [qualityGateOut, h]
    · simp at he'
  | cons a rest ih =>
    simp only [List.cons_append]
    unfold qualityGateOut
    split_ifs with h₁ h₂
    · apply ih
      rcases h with h | ⟨e', he', hk, hp⟩
      · exact Or.inl h
      · rcases List.mem_cons.mp he' with rfl | he'
        · exact Or.inl (hk ▸ h₁)
        · exact Or.inr ⟨e', he', hk, hp⟩
    · apply ih
      rcases h with h | ⟨e', he', hk, hp⟩
      · exact Or.inl h
      · rcases List.mem_cons.mp he' with rfl | he'
        · rw [hp] at h₂
          simp at h₂
        · exact Or.inr ⟨e', he', hk, hp⟩
    · congr 1
      apply ih
      rcases h with h | ⟨e', he', hk, hp⟩
      · exact Or.inl (List.mem_cons_of_mem _ h)
      · rcases List.mem_cons.mp he' with rfl | he'
        · exact Or.inl (by rw [hk]; exact List.mem_cons_self _ _)
        · exact Or.inr ⟨e', he', hk, hp⟩

theorem source_of_mem_qualityGateOut (L : Lib F) (c : Collector) (seen : List String)
    (es : List QualityGateEntry) (m : Metric F) (h : m ∈ qualityGateOut L c seen es) :
    ∃ pre e post, es = pre ++ e :: post
      ∧ (L.ParseFloat e.Value 64).2 = none
      ∧ trimmedKeyOf e ∉ seen
      ∧ (∀ e' ∈ pre, trimmedKeyOf e' = trimmedKeyOf e → (L.ParseFloat e'.Value 64).2 ≠ none)
      ∧ m = Metric.mk c.qualityGate ValueType.GaugeValue (L.ParseFloat e.Value 64).1
          [trimmedKeyOf e] := by
  induction es generalizing seen with
  | nil => simp [qualityGateOut] at h
  | cons a rest ih =>
    unfold qualityGateOut at h
    split_ifs at h with h₁ h₂
    · obtain ⟨pre, e, post, hes, hp, hns, hfirst, hm⟩ := ih _ h
      refine ⟨a :: pre, e, post, by rw [hes]; rfl, hp, hns, ?_, hm⟩
      intro e' he' hk
      rcases List.mem_cons.mp he' with rfl | he'
      · exact absurd (hk ▸ h₁) hns
      · exact hfirst e' he' hk
    · obtain ⟨pre, e, post, hes, hp, hns, hfirst, hm⟩ := ih _ h
      refine ⟨a :: pre, e, post, by rw [hes]; rfl, hp, hns, ?_, hm⟩
      intro e' he' hk
      rcases List.mem_cons.mp he' with rfl | he'
      · intro hnone
        rw [hnone] at h₂
        simp at h₂
      · exact hfirst e' he' hk
    · rcases List.mem_cons.mp h with h | h
      · refine ⟨[], a, rest, rfl, ?_, h₁, by simp, h⟩
        cases hpa : (L.ParseFloat a.Value 64).2 with
        | none => rfl
        | some x => rw [hpa] at h₂; simp at h₂
      · obtain ⟨pre, e, post, hes, hp, hns, hfirst, hm⟩ := ih _ h
        refine ⟨a :: pre, e, post, by rw [hes]; rfl, hp,
          fun hmem => hns (List.mem_cons_of_mem _ hmem), ?_, hm⟩
        intro e' he' hk
        rcases List.mem_cons.mp he' with rfl | he'
        · exact absurd (by rw [hk]; exact List.mem_cons_self _ _) hns
        · exact hfirst e' he' hk

theorem TrimPrefix_append (p rest : String) : TrimPrefix (p ++ rest) p = rest := by
  unfold TrimPrefix HasPrefix
  simp [String.data_append]

theorem TrimPrefix_of_not_append (s p : String) (h : ¬ ∃ rest, s = p ++ rest) :
    TrimPrefix s p = s := by
  unfold TrimPrefix HasPrefix
  have hne : ¬ (s.data.take p.data.length = p.data) := by
    intro heq
    apply h
    refine ⟨⟨s.data.drop p.data.length⟩, String.ext ?_⟩
    rw [String.data_append]
    show s.data = p.data ++ s.data.drop p.data.length
    conv_lhs => rw [← List.take_append_drop p.data.length s.data, heq]
  have hfalse : ¬ ((decide (s.data.length ≥ p.data.length)
      && decide (s.data.take p.data.length = p.data)) = true) := by
    simp only [Bool.and_eq_true, decide_eq_true_eq]
    exact fun hc => hne hc.2
  rw [if_neg hfalse]

theorem Collect_New_filter_qualityGate [Zero F] [One F] (L : Lib F) (n : List String)
    (stats : Stats) :
    (Metric.mk (New n).up ValueType.GaugeValue (1 : F) [] ::
      ((if (New n).enabledMetrics.index "projectInfo" = true then
          stats.Projects.map (projectInfoMetric (New n)) else [])
        ++ (stats.Measurements.flatMap (measurementOut L (New n))
        ++ (if (New n).enabledMetrics.index "qualityGate" = true then
          qualityGateOut L (New n) [] stats.QualityGate else [])))).filter
        (fun m => decide (m.desc = (New n).qualityGate))
      = if (New n).enabledMetrics.index "qualityGate" = true then
          qualityGateOut L (New n) [] stats.QualityGate else [] := by
  have hup : ¬ ((fun m : Metric F => decide (m.desc = (New n).qualityGate))
      (Metric.mk (New n).up ValueType.GaugeValue (1 : F) []) = true) := by
    simp only [New_up, New_qualityGate, decide_eq_true_eq]
    decide
  have hpi : (if (New n).enabledMetrics.index "projectInfo" = true then
      stats.Projects.map (projectInfoMetric (F := F) (New n)) else []).filter
      (fun m => decide (m.desc = (New n).qualityGate)) = [] := by
    rw [List.filter_eq_nil_iff]
    intro m hm
    split_ifs at hm
    · obtain ⟨p, _, rfl⟩ := List.mem_map.mp hm
      simp only [projectInfoMetric, New_projectInfo, New_qualityGate, decide_eq_true_eq]
      decide
    · simp at hm
  have hms : (stats.Measurements.flatMap (measurementOut L (New n))).filter
      (fun m => decide (m.desc = (New n).qualityGate)) = [] := by
    rw [List.filter_eq_nil_iff]
    intro m hm
    obtain ⟨e, _, he⟩ := List.mem_flatMap.mp hm
    have hd := desc_of_mem_measurementOut L _ e m he
    simp only [New_linesOfCode, New_codeCoverage, New_vulnerabilities, New_bugs,
      New_codeSmells, List.mem_cons, List.mem_singleton, List.not_mem_nil, or_false] at hd
    rw [New_qualityGate, decide_eq_true_eq]
    rcases hd with hd | hd | hd | hd | hd <;> rw [hd] <;> decide
  have hqg : (if (New n).enabledMetrics.index "qualityGate" = true then
      qualityGateOut L (New n) [] stats.QualityGate else []).filter
      (fun m => decide (m.desc = (New n).qualityGate))
      = if (New n).enabledMetrics.index "qualityGate" = true then
          qualityGateOut L (New n) [] stats.QualityGate else [] := by
    rw [List.filter_eq_self]
    intro m hm
    split_ifs at hm
    · simp [desc_of_mem_qualityGateOut L _ _ _ m hm]
    · simp at hm
  rw [@List.filter_cons_of_neg _ (fun m : Metric F => decide (m.desc = (New n).qualityGate))
    _ _ hup, List.filter_append, List.filter_append, hpi, hms, hqg]
  simp

theorem qualityGateOut_unparsable_skip (L : Lib F) (c : Collector)
    (pre post : List QualityGateEntry) (e : QualityGateEntry) (seen : List String)
    (hfail : (L.ParseFloat e.Value 64).2 ≠ none) :
    qualityGateOut L c seen (pre ++ e :: post) = qualityGateOut L c seen (pre ++ post) := by
  have herr : (L.ParseFloat e.Value 64).2.isSome = true := by
    cases hp : (L.ParseFloat e.Value 64).2 with
    | none => exact absurd hp hfail
    | some x => rfl
  induction pre generalizing seen with
  | nil =>
    simp only [List.nil_append]
    rw [qualityGateOut]
    simp [herr]
  | cons a rest ih =>
    simp only [List.cons_append]
    unfold qualityGateOut
    split_ifs
    · exact ih _
    · exact ih _
    · rw [ih]

theorem qualityGateOut_append (L : Lib F) (c : Collector) (xs ys : List QualityGateEntry)
    (seen : List String) :
    ∃ seen' : List String,
      (∀ k, k ∈ seen' ↔
        k ∈ seen ∨ [k] ∈ (qualityGateOut L c seen xs).map (fun m => m.labelValues))
      ∧ qualityGateOut L c seen (xs ++ ys)
          = qualityGateOut L c seen xs ++ qualityGateOut L c seen' ys := by
  induction xs generalizing seen with
  | nil => exact ⟨seen, by simp [qualityGateOut], by simp [qualityGateOut]⟩
  | cons a rest ih =>
    simp only [List.cons_append]
    by_cases h₁ : trimmedKeyOf a ∈ seen
    · obtain ⟨seen', hmem, heq⟩ := ih seen
      refine ⟨seen', ?_, ?_⟩
      · intro k
        rw [hmem k]
        simp [qualityGateOut, h₁]
      · rw [qualityGateOut, if_pos h₁, heq]
        simp [qualityGateOut, h₁]
    · by_cases h₂ : (L.ParseFloat a.Value 64).2.isSome = true
      · obtain ⟨seen', hmem, heq⟩ := ih seen
        refine ⟨seen', ?_, ?_⟩
        · intro k
          rw [hmem k]
          simp [qualityGateOut, h₁, h₂]
        · rw [qualityGateOut, if_neg h₁, if_pos h₂, heq]
          simp [qualityGateOut, h₁, h₂]
      · obtain ⟨seen', hmem, heq⟩ := ih (trimmedKeyOf a :: seen)
        have hout : qualityGateOut L c seen (a :: rest)
            = Metric.mk c.qualityGate ValueType.GaugeValue (L.ParseFloat a.Value 64).1
                [trimmedKeyOf a] :: qualityGateOut L c (trimmedKeyOf a :: seen) rest := by
          rw [qualityGateOut, if_neg h₁, if_neg h₂]
        refine ⟨seen', ?_, ?_⟩
        · intro k
          rw [hmem k, hout]
          simp only [List.map_cons, List.mem_cons, List.cons.injEq, and_true]
          tauto
        · rw [qualityGateOut, if_neg h₁, if_neg h₂, heq, hout]
          rfl

theorem Collect_New_filter_projectInfo [Zero F] [One F] (L : Lib F) (n : List String)
    (stats : Stats) :
    (Metric.mk (New n).up ValueType.GaugeValue (1 : F) [] ::
      ((if (New n).enabledMetrics.index "projectInfo" = true then
          stats.Projects.map (projectInfoMetric (New n)) else [])
        ++ (stats.Measurements.flatMap (measurementOut L (New n))
        ++ (if (New n).enabledMetrics.index "qualityGate" = true then
          qualityGateOut L (New n) [] stats.QualityGate else [])))).filter
        (fun m => decide (m.desc = (New n).projectInfo))
      = if (New n).enabledMetrics.index "projectInfo" = true then
          stats.Projects.map (projectInfoMetric (New n)) else [] := by
  have hup : ¬ ((fun m : Metric F => decide (m.desc = (New n).projectInfo))
      (Metric.mk (New n).up ValueType.GaugeValue (1 : F) []) = true) := by
    simp only [New_up, New_projectInfo, decide_eq_true_eq]
    decide
  have hpi : (if (New n).enabledMetrics.index "projectInfo" = true then
      stats.Projects.map (projectInfoMetric (F := F) (New n)) else []).filter
      (fun m => decide (m.desc = (New n).projectInfo))
      = if (New n).enabledMetrics.index "projectInfo" = true then
          stats.Projects.map (projectInfoMetric (New n)) else [] := by
    rw [List.filter_eq_self]
    intro m hm
    split_ifs at hm
    · obtain ⟨p, _, rfl⟩ := List.mem_map.mp hm
      simp [projectInfoMetric]
    · simp at hm
  have hms : (stats.Measurements.flatMap (measurementOut L (New n))).filter
      (fun m => decide (m.desc = (New n).projectInfo)) = [] := by
    rw [List.filter_eq_nil_iff]
    intro m hm
    obtain ⟨e, _, he⟩ := List.mem_flatMap.mp hm
    have hd := desc_of_mem_measurementOut L _ e m he
    simp only [New_linesOfCode, New_codeCoverage, New_vulnerabilities, New_bugs,
      New_codeSmells, List.mem_cons, List.mem_singleton, List.not_mem_nil, or_false] at hd
    rw [New_projectInfo, decide_eq_true_eq]
    rcases hd with hd | hd | hd | hd | hd <;> rw [hd] <;> decide
  have hqg : (if (New n).enabledMetrics.index "qualityGate" = true then
      qualityGateOut L (New n) [] stats.QualityGate else []).filter
      (fun m => decide (m.desc = (New n).projectInfo)) = [] := by
    rw [List.filter_eq_nil_iff]
    intro m hm
    split_ifs at hm
    · rw [desc_of_mem_qualityGateOut L _ _ _ m hm, New_qualityGate, New_projectInfo,
        decide_eq_true_eq]
      decide
    · simp at hm
  rw [@List.filter_cons_of_neg _ (fun m : Metric F => decide (m.desc = (New n).projectInfo))
    _ _ hup, List.filter_append, List.filter_append, hpi, hms, hqg]
  simp

theorem enabled_of_mem_measurementOut (L : Lib F) (c : Collector) (e : Measurement)
    (m : Metric F) (h : m ∈ measurementOut L c e) :
    ∃ row ∈ [("linesOfCode", c.linesOfCode), ("codeCoverage", c.codeCoverage),
        ("vulnerabilities", c.vulnerabilities), ("bugs", c.bugs),
        ("codeSmells", c.codeSmells)],
      m.desc = row.2 ∧ c.enabledMetrics.index row.1 = true := by
  unfold measurementOut at h
  split_ifs at h with h₁ h₂ h₃ h₄ h₅
  · exact ⟨("linesOfCode", c.linesOfCode), by simp, by simp at h; rw [h], h₁.2⟩
  · exact ⟨("codeCoverage", c.codeCoverage), by simp, by simp at h; rw [h], h₂.2⟩
  · exact ⟨("vulnerabilities", c.vulnerabilities), by simp, by simp at h; rw [h], h₃.2⟩
  · exact ⟨("bugs", c.bugs), by simp, by simp at h; rw [h], h₄.2⟩
  · exact ⟨("codeSmells", c.codeSmells), by simp, by simp at h; rw [h], h₅.2⟩
  · simp at h

theorem arity_of_mem_measurementOut (L : Lib F) (n : List String) (e : Measurement)
    (m : Metric F) (h : m ∈ measurementOut L (New n) e) :
    m.labelValues.length = m.desc.variableLabels.length := by
  unfold measurementOut at h
  split_ifs at h <;> simp at h <;> rw [h] <;> rfl

theorem collectQualityGateByTrimmedKey_loop (L : Lib F) (n : List String)
    (es : List QualityGateEntry) (pm : MapStringBool) (ch : Chan F) (seen : List String)
    (hInv : ∀ k, pm.index k = true ↔ k ∈ seen) :
    ∃ pm', es.foldlM (collectQualityGateByTrimmedKeyBody L (New n)) (pm, ch)
      = Except.ok (pm', ch ++ qualityGateOut L (New n) seen es) := by
  induction es generalizing pm ch seen with
  | nil => exact ⟨pm, by simp [qualityGateOut, pure, Except.pure]⟩
  | cons e rest ih =>
    rw [List.foldlM_cons]
    by_cases hseen : trimmedKeyOf e ∈ seen
    · have hidx := (hInv (trimmedKeyOf e)).mpr hseen
      have hbody : collectQualityGateByTrimmedKeyBody L (New n) (pm, ch) e
          = Except.ok (pm, ch) := by
        unfold collectQualityGateByTrimmedKeyBody
        simp only [trimmedKeyOf] at hidx
        simp only [hidx, if_true]
        rfl
      rw [hbody]
      obtain ⟨pm', h⟩ := ih pm ch seen hInv
      refine ⟨pm', ?_⟩
      show rest.foldlM _ (pm, ch) = _
      rw [h]
      simp [qualityGateOut, hseen]
    · have hidx : ¬ pm.index (trimmedKeyOf e) = true := fun h => hseen ((hInv _).mp h)
      by_cases herr : (L.ParseFloat e.Value 64).2.isSome = true
      · have hbody : collectQualityGateByTrimmedKeyBody L (New n) (pm, ch) e
            = Except.ok (pm, ch) := by
          unfold collectQualityGateByTrimmedKeyBody
          simp only [trimmedKeyOf] at hidx
          simp only [hidx, if_false, herr, if_true]
          rfl
        rw [hbody]
        obtain ⟨pm', h⟩ := ih pm ch seen hInv
        refine ⟨pm', ?_⟩
        show rest.foldlM _ (pm, ch) = _
        rw [h]
        simp [qualityGateOut, hseen, herr]
      · have hbody : collectQualityGateByTrimmedKeyBody L (New n) (pm, ch) e
            = Except.ok (pm.assign (trimmedKeyOf e) true,
                ch ++ [Metric.mk (New n).qualityGate ValueType.GaugeValue
                  (L.ParseFloat e.Value 64).1 [trimmedKeyOf e]]) := by
          unfold collectQualityGateByTrimmedKeyBody
          simp only [trimmedKeyOf] at hidx
          simp only [hidx, if_false, herr]
          rfl
        rw [hbody]
        have hInv' : ∀ k, (pm.assign (trimmedKeyOf e) true).index k = true
            ↔ k ∈ trimmedKeyOf e :: seen := by
          intro k
          rw [index_assign]
          by_cases hk : k = trimmedKeyOf e
          · simp [hk]
          · simp only [hk, if_false, List.mem_cons, false_or]
            exact hInv k
        obtain ⟨pm', h⟩ := ih _ (ch ++ [Metric.mk (New n).qualityGate ValueType.GaugeValue
          (L.ParseFloat e.Value 64).1 [trimmedKeyOf e]]) _ hInv'
        refine ⟨pm', ?_⟩
        show rest.foldlM _ (_, _) = _
        rw [h]
        simp [qualityGateOut, hseen, herr]

theorem collectQualityGateByTrimmedKey_New (L : Lib F) (n : List String) (ch : Chan F)
    (stats : Stats) :
    collectQualityGateByTrimmedKey L (New n) ch stats
      = Except.ok (ch ++ qualityGateOut L (New n) [] stats.QualityGate) := by
  unfold collectQualityGateByTrimmedKey
  obtain ⟨pm', h⟩ := collectQualityGateByTrimmedKey_loop L n stats.QualityGate
    MapStringBool.make ch [] (by intro k; simp [MapStringBool.index, MapStringBool.make])
  show (List.foldlM (collectQualityGateByTrimmedKeyBody L (New n)) (MapStringBool.make, ch)
    stats.QualityGate >>= fun st => pure st.2) = _
  rw [h]
  rfl

theorem splitLoop_ne_nil (sep : List Char) (skip : Nat) (cur cs : List Char) :
    splitLoop sep skip cur cs ≠ [] := by
  induction cs generalizing skip cur with
  | nil => simp [splitLoop]
  | cons c rest ih =>
    cases skip with
    | zero =>
      rw [splitLoop]
      split_ifs
      · simp
      · exact ih _ _
    | succ k =>
      rw [splitLoop]
      exact ih _ _

theorem splitLoop_comma_singleton (cur cs x : List Char)
    (h : splitLoop [','] 0 cur cs = [x]) : x = cur.reverse ++ cs := by
  induction cs generalizing cur with
  | nil =>
    simp only [splitLoop, List.cons.injEq, and_true] at h
    simp [h]
  | cons c rest ih =>
    rw [splitLoop] at h
    split_ifs at h with hc
    · simp only [List.cons.injEq] at h
      exact absurd h.2 (splitLoop_ne_nil _ _ _ _)
    · rw [ih _ h]
      simp

theorem Split_comma_singleton (s x : String) (h : Split s "," = [x]) : x = s := by
  unfold Split at h
  have hsep : ¬ (",".data = []) := by decide
  rw [if_neg hsep] at h
  have hdata : ",".data = [','] := rfl
  rw [hdata] at h
  cases hl : splitLoop [','] 0 [] s.data with
  | nil => exact absurd hl (splitLoop_ne_nil _ _ _ _)
  | cons f fs =>
    rw [hl] at h
    simp only [List.map_cons, List.cons.injEq, List.map_eq_nil_iff] at h
    obtain ⟨hf, hfs⟩ := h
    rw [hfs] at hl
    have := splitLoop_comma_singleton [] s.data f hl
    simp only [List.reverse_nil, List.nil_append] at this
    rw [← hf]
    exact String.ext this

theorem foldlM_thread {σ α β : Type} (s : σ) (body : β → α → Except String β)
    (bodySt : σ × β → α → Except String (σ × β))
    (h : ∀ b a, bodySt (s, b) a = (body b a).map (Prod.mk s)) (l : List α) (b : β) :
    l.foldlM bodySt (s, b) = (l.foldlM body b).map (Prod.mk s) := by
  induction l generalizing b with
  | nil => rfl
  | cons a rest ih =>
    rw [List.foldlM_cons, List.foldlM_cons, h]
    cases hb : body b a with
    | error e => rfl
    | ok b' => exact ih b'

theorem collectProjectInfoSt_eq [One F] (c : Collector) (ch : Chan F) (stats : Stats) :
    collectProjectInfoSt (c, ch) stats
      = (collectProjectInfo c ch stats).map (Prod.mk c) := by
  unfold collectProjectInfoSt collectProjectInfo
  apply foldlM_thread
  intro b a
  simp only [MustNewConstMetric]
  split_ifs <;> rfl

theorem collectMeasurementsSt_eq (L : Lib F) (c : Collector) (ch : Chan F) (stats : Stats) :
    collectMeasurementsSt L (c, ch) stats
      = (collectMeasurements L c ch stats).map (Prod.mk c) := by
  unfold collectMeasurementsSt collectMeasurements
  apply foldlM_thread
  intro b a
  unfold collectMeasurementsStBody collectMeasurementsBody
  simp only [MustNewConstMetric]
  split_ifs <;> rfl

theorem collectQualityGateSt_eq (L : Lib F) (c : Collector) (ch : Chan F) (stats : Stats) :
    collectQualityGateSt L (c, ch) stats
      = (collectQualityGate L c ch stats).map (Prod.mk c) := by
  unfold collectQualityGateSt collectQualityGate
  have hloop := foldlM_thread c (collectQualityGateBody L c) (collectQualityGateStBody L)
    (by
      intro b a
      unfold collectQualityGateStBody collectQualityGateBody
      simp only [MustNewConstMetric]
      split_ifs <;> rfl)
    stats.QualityGate (MapStringBool.make, ch)
  show (List.foldlM (collectQualityGateStBody L) (c, MapStringBool.make, ch)
      stats.QualityGate >>= fun st => pure (st.1, st.2.2))
    = Except.map (Prod.mk c) (List.foldlM (collectQualityGateBody L c) (MapStringBool.make, ch)
      stats.QualityGate >>= fun st => pure st.2)
  rw [hloop]
  generalize List.foldlM (collectQualityGateBody L c) (MapStringBool.make, ch)
    stats.QualityGate = res
  cases res <;> rfl

theorem collectProjectInfoSt_New [One F] (n : List String) (ch : Chan F) (stats : Stats) :
    collectProjectInfoSt (New n, ch) stats
      = Except.ok (New n, ch ++ stats.Projects.map (projectInfoMetric (New n))) := by
  rw [collectProjectInfoSt_eq, collectProjectInfo_New]
  rfl

theorem collectMeasurementsSt_New (L : Lib F) (n : List String) (ch : Chan F)
    (stats : Stats) :
    collectMeasurementsSt L (New n, ch) stats
      = Except.ok (New n, ch ++ stats.Measurements.flatMap (measurementOut L (New n))) := by
  rw [collectMeasurementsSt_eq, collectMeasurements_New]
  rfl

theorem collectQualityGateSt_New (L : Lib F) (n : List String) (ch : Chan F)
    (stats : Stats) :
    collectQualityGateSt L (New n, ch) stats
      = Except.ok (New n, ch ++ qualityGateOut L (New n) [] stats.QualityGate) := by
  rw [collectQualityGateSt_eq, collectQualityGate_New]
  rfl

theorem CollectSt_New_failure [Zero F] [One F] (L : Lib F) (n : List String) (ch : Chan F)
    (stats : Stats) (err : String) :
    CollectSt L (New n, ch) (stats, some err)
      = Except.ok (New n, ch ++ [Metric.mk (New n).up ValueType.GaugeValue 0 []]) := by
  rfl

theorem CollectSt_New_success [Zero F] [One F] (L : Lib F) (n : List String) (ch : Chan F)
    (stats : Stats) :
    CollectSt L (New n, ch) (stats, none)
      = Except.ok (New n, ch ++ (Metric.mk (New n).up ValueType.GaugeValue 1 [] ::
          ((if (New n).enabledMetrics.index "projectInfo" = true then
              stats.Projects.map (projectInfoMetric (New n)) else [])
            ++ (stats.Measurements.flatMap (measurementOut L (New n))
            ++ (if (New n).enabledMetrics.index "qualityGate" = true then
              qualityGateOut L (New n) [] stats.QualityGate else []))))) := by
  unfold CollectSt
  have hup : (MustNewConstMetric (New n).up ValueType.GaugeValue (1 : F) [])
      = Except.ok (Metric.mk (New n).up ValueType.GaugeValue 1 []) := rfl
  simp only [hup, bind, Except.bind, pure, Except.pure, Chan.send]
  by_cases hp : (New n).enabledMetrics.index "projectInfo" = true <;>
    by_cases hq : (New n).enabledMetrics.index "qualityGate" = true <;>
    simp [hp, hq, collectProjectInfoSt_New, collectMeasurementsSt_New,
      collectQualityGateSt_New]

theorem CollectSt_eq [Zero F] [One F] (L : Lib F) (c : Collector) (ch : Chan F)
    (r : Stats × Option String) :
    CollectSt L (c, ch) r = (Collect L c ch r).map (Prod.mk c) := by
  obtain ⟨stats, err⟩ := r
  cases err with
  | some e =>
    unfold CollectSt Collect
    simp only [MustNewConstMetric]
    split_ifs <;> rfl
  | none =>
    unfold CollectSt Collect
    generalize MustNewConstMetric c.up ValueType.GaugeValue (1 : F) [] = res
    cases res with
    | error e => rfl
    | ok m =>
      simp only [bind, Except.bind, pure, Except.pure]
      by_cases hp : c.enabledMetrics.index "projectInfo" = true
      · simp only [hp, if_true, collectProjectInfoSt_eq]
        generalize collectProjectInfo c (Chan.send ch m) stats = res
        cases res with
        | error e => rfl
        | ok ch₁ =>
          simp only [Except.map, collectMeasurementsSt_eq]
          generalize collectMeasurements L c ch₁ stats = res
          cases res with
          | error e => rfl
          | ok ch₂ =>
            simp only [Except.map]
            by_cases hq : c.enabledMetrics.index "qualityGate" = true
            · simp only [hq, if_true, collectQualityGateSt_eq]
              generalize collectQualityGate L c ch₂ stats = res
              cases res <;> rfl
            · simp only [hq]
              rfl
      · simp only [hp, Bool.false_eq_true, if_false, collectMeasurementsSt_eq]
        generalize collectMeasurements L c (Chan.send ch m) stats = res
        cases res with
        | error e => rfl
        | ok ch₂ =>
          simp only [Except.map]
          by_cases hq : c.enabledMetrics.index "qualityGate" = true
          · simp only [hq, if_true, collectQualityGateSt_eq]
            generalize collectQualityGate L c ch₂ stats = res
            cases res <;> rfl
          · simp only [hq]
            rfl

end PassLemmas

/-! ## The claims -/

/-- C1: when `GetStats` fails, `Collect` sends exactly one metric, the liveness
metric `up` with value 0 and no label value, and nothing else; this holds for
every list of metric names given to `New` and for every enabled-metrics map put
in place of the one `New` computed. -/
theorem C1_fetch_failure_emits_only_up_zero {F : Type} [Zero F] [One F] (L : Lib F)
    (metricNames : List String) (em : MapStringBool) (ch : Chan F) (stats : Stats)
    (err : String) :
    Collect L { New metricNames with enabledMetrics := em } ch (stats, some err)
      = Except.ok (ch ++ [Metric.mk (New metricNames).up ValueType.GaugeValue 0 []]) := by
  rfl

/-- C2: when `GetStats` succeeds, for every snapshot and every list of metric names
given to `New`, `Collect` returns without a panic, the first metric it sends is the
liveness metric `up` with value 1, and no metric sent after it is bound to the
descriptor `up`. -/
theorem C2_fetch_success_up_one_first {F : Type} [Zero F] [One F] (L : Lib F)
    (metricNames : List String) (ch : Chan F) (stats : Stats) :
    ∃ rest : List (Metric F),
      Collect L (New metricNames) ch (stats, none)
        = Except.ok (ch ++ Metric.mk (New metricNames).up ValueType.GaugeValue 1 [] :: rest)
      ∧ ∀ m ∈ rest, m.desc ≠ (New metricNames).up := by
  refine ⟨_, Collect_New_success L metricNames ch stats, ?_⟩
  intro m hm
  simp only [List.mem_append] at hm
  rcases hm with hm | hm | hm
  · split_ifs at hm
    · obtain ⟨p, _, rfl⟩ := List.mem_map.mp hm
      simp only [projectInfoMetric, New_projectInfo, New_up]
      decide
    · simp at hm
  · obtain ⟨e, _, he⟩ := List.mem_flatMap.mp hm
    have hd := desc_of_mem_measurementOut L _ e m he
    simp only [New_linesOfCode, New_codeCoverage, New_vulnerabilities, New_bugs,
      New_codeSmells, List.mem_cons, List.mem_singleton, List.not_mem_nil, or_false] at hd
    rw [New_up]
    rcases hd with hd | hd | hd | hd | hd <;> rw [hd] <;> decide
  · split_ifs at hm
    · rw [desc_of_mem_qualityGateOut L _ _ _ m hm, New_qualityGate, New_up]
      decide
    · simp at hm

/-- C8: `New` called with exactly the list `["all"]` enables each of the eight known
kinds `up`, `projectInfo`, `linesOfCode`, `codeCoverage`, `vulnerabilities`, `bugs`,
`codeSmells`, `qualityGate`. -/
theorem C8_New_all_enables_every_kind :
    (New ["all"]).enabledMetrics.index "up" = true
    ∧ (New ["all"]).enabledMetrics.index "projectInfo" = true
    ∧ (New ["all"]).enabledMetrics.index "linesOfCode" = true
    ∧ (New ["all"]).enabledMetrics.index "codeCoverage" = true
    ∧ (New ["all"]).enabledMetrics.index "vulnerabilities" = true
    ∧ (New ["all"]).enabledMetrics.index "bugs" = true
    ∧ (New ["all"]).enabledMetrics.index "codeSmells" = true
    ∧ (New ["all"]).enabledMetrics.index "qualityGate" = true := by
  decide

/-- C9: for every list of metric names other than exactly `["all"]`, a kind (known
or not) is enabled if and only if its name occurs in the list; and every other such
list with the same set of tokens gives the same enabled-metrics map. -/
theorem C9_New_explicit_list_enables_listed (metricNames : List String)
    (h : metricNames ≠ ["all"]) :
    (∀ k : String, (New metricNames).enabledMetrics.index k = true ↔ k ∈ metricNames)
    ∧ (∀ other : List String, other ≠ ["all"] → (∀ t, t ∈ other ↔ t ∈ metricNames) →
        (New other).enabledMetrics = (New metricNames).enabledMetrics) := by
  refine ⟨New_index_explicit metricNames h, ?_⟩
  intro other ho hset
  rw [New_enabledMetrics_explicit other ho, New_enabledMetrics_explicit metricNames h]
  funext k
  rw [foldl_assign_apply, foldl_assign_apply]
  by_cases hk : k ∈ metricNames
  · simp [hk, (hset k).mpr hk]
  · have hk' : k ∉ other := fun hko => hk ((hset k).mp hko)
    simp [hk, hk']

/-- Witness for C9 at the list `["bugs", "all", "nope", "bugs"]`, compared with
`["all", "bugs", "nope"]`. -/
theorem C9_New_explicit_list_enables_listed_witness :
    ["bugs", "all", "nope", "bugs"] ≠ ["all"]
    ∧ ((New ["bugs", "all", "nope", "bugs"]).enabledMetrics.index "bugs" = true
      ∧ (New ["bugs", "all", "nope", "bugs"]).enabledMetrics.index "up" = false
      ∧ (New ["all", "bugs", "nope"]).enabledMetrics
          = (New ["bugs", "all", "nope", "bugs"]).enabledMetrics) := by
  have h := C9_New_explicit_list_enables_listed ["bugs", "all", "nope", "bugs"] (by decide)
  refine ⟨by decide, (h.1 "bugs").mpr (by decide), ?_, ?_⟩
  · have hup := (h.1 "up").not.mpr (by decide)
    simpa using hup
  · exact h.2 ["all", "bugs", "nope"] (by decide) (by intro t; simp; tauto)


/-- C3 (the code departs from the claim): the entry
`{Key: "proj1", Metric: "bugs", Value: "not-a-number"}` does not parse, and with
`bugs` enabled `collectMeasurements` still sends a metric for it, bound to the
descriptor `bugs`, with the value `0` that came back with the error. -/
theorem C3_parse_failure_still_sends_metric :
    decimalLib.ParseFloat "not-a-number" 64 = (0, some "invalid syntax")
    ∧ collectMeasurements decimalLib (New ["all"]) []
        ⟨[], [⟨"proj1", "bugs", "not-a-number"⟩], []⟩
      = Except.ok [Metric.mk (New ["all"]).bugs ValueType.GaugeValue 0 ["proj1"]] := by
  constructor
  · decide
  · rw [collectMeasurements_New, Except.ok.injEq]
    decide

/-- C4: for a measurement entry whose `Value` parses to `v` and whose `Metric` is
`metric`, one of `ncloc`, `coverage`, `vulnerabilities`, `bugs`, `violations`, with
`kind` and `desc` the kind and descriptor of the same row of the table:
`collectMeasurements` sends, between what it sends for the entries before and what
it sends for the entries after, exactly one metric for the entry when `kind` is
enabled, bound to `desc`, with value `v` and the single label value `Key`, and no
metric for the entry when `kind` is disabled. -/
theorem C4_measurement_dispatch {F : Type} (L : Lib F) (metricNames : List String)
    (ch : Chan F) (projects : List Project) (qg : List QualityGateEntry)
    (pre post : List Measurement) (entry : Measurement) (v : F)
    (metric kind : String) (desc : Desc)
    (hparse : L.ParseFloat entry.Value 64 = (v, none))
    (hrow : (metric, kind, desc) ∈
      [("ncloc", "linesOfCode", (New metricNames).linesOfCode),
       ("coverage", "codeCoverage", (New metricNames).codeCoverage),
       ("vulnerabilities", "vulnerabilities", (New metricNames).vulnerabilities),
       ("bugs", "bugs", (New metricNames).bugs),
       ("violations", "codeSmells", (New metricNames).codeSmells)])
    (hmetric : entry.Metric = metric) :
    ∃ before after : List (Metric F),
      collectMeasurements L (New metricNames) ch ⟨projects, pre, qg⟩
        = Except.ok (ch ++ before)
      ∧ collectMeasurements L (New metricNames) [] ⟨projects, post, qg⟩ = Except.ok after
      ∧ collectMeasurements L (New metricNames) ch ⟨projects, pre ++ entry :: post, qg⟩
        = Except.ok (ch ++ before
            ++ (if (New metricNames).enabledMetrics.index kind = true then
                  [Metric.mk desc ValueType.GaugeValue v [entry.Key]] else [])
            ++ after) := by
  obtain ⟨h1, h2, h3⟩ := collectMeasurements_split L metricNames ch projects qg pre post entry
  refine ⟨_, _, h1, h2, ?_⟩
  rw [h3]
  congr 3
  simp only [List.mem_cons, Prod.mk.injEq, List.mem_singleton, List.not_mem_nil, or_false]
    at hrow
  rcases hrow with ⟨rfl, rfl, rfl⟩ | ⟨rfl, rfl, rfl⟩ | ⟨rfl, rfl, rfl⟩ | ⟨rfl, rfl, rfl⟩
    | ⟨rfl, rfl, rfl⟩ <;>
    simp [measurementOut, hmetric, hparse]

/-- Witness for C4 at the entry `{Key: "proj1", Metric: "ncloc", Value: "1234"}`,
once with `linesOfCode` enabled and once with it disabled. -/
theorem C4_measurement_dispatch_witness :
    decimalLib.ParseFloat "1234" 64 = (1234, none)
    ∧ collectMeasurements decimalLib (New ["all"]) [] ⟨[], [⟨"proj1", "ncloc", "1234"⟩], []⟩
        = Except.ok [Metric.mk (New ["all"]).linesOfCode ValueType.GaugeValue 1234 ["proj1"]]
    ∧ collectMeasurements decimalLib (New ["bugs"]) [] ⟨[], [⟨"proj1", "ncloc", "1234"⟩], []⟩
        = Except.ok [] := by
  have hp : decimalLib.ParseFloat "1234" 64 = (1234, none) := by decide
  refine ⟨hp, ?_, ?_⟩
  · obtain ⟨before, after, h1, h2, h3⟩ :=
      C4_measurement_dispatch decimalLib ["all"] [] [] [] [] [] ⟨"proj1", "ncloc", "1234"⟩ 1234
        "ncloc" "linesOfCode" (New ["all"]).linesOfCode hp (by simp) rfl
    have hb : before = [] := by
      have := h1.symm.trans (collectMeasurements_New decimalLib ["all"] [] ⟨[], [], []⟩)
      simpa using this
    have ha : after = [] := by
      have := h2.symm.trans (collectMeasurements_New decimalLib ["all"] [] ⟨[], [], []⟩)
      simpa using this
    have he : (New ["all"]).enabledMetrics.index "linesOfCode" = true := by decide
    rw [hb, ha, he] at h3
    simpa using h3
  · obtain ⟨before, after, h1, h2, h3⟩ :=
      C4_measurement_dispatch decimalLib ["bugs"] [] [] [] [] [] ⟨"proj1", "ncloc", "1234"⟩ 1234
        "ncloc" "linesOfCode" (New ["bugs"]).linesOfCode hp (by simp) rfl
    have hb : before = [] := by
      have := h1.symm.trans (collectMeasurements_New decimalLib ["bugs"] [] ⟨[], [], []⟩)
      simpa using this
    have ha : after = [] := by
      have := h2.symm.trans (collectMeasurements_New decimalLib ["bugs"] [] ⟨[], [], []⟩)
      simpa using this
    have he : (New ["bugs"]).enabledMetrics.index "linesOfCode" = false := by decide
    rw [hb, ha, he] at h3
    simpa using h3

/-- C10: for a measurement entry whose `Metric` is none of `ncloc`, `coverage`,
`vulnerabilities`, `bugs`, `violations`, whatever its `Value` and whatever the list
of metric names given to `New`, `collectMeasurements` sends no metric for the
entry: it sends what it sends for the entries before, followed by what it sends
for the entries after. -/
theorem C10_unmatched_metric_dropped {F : Type} (L : Lib F) (metricNames : List String)
    (ch : Chan F) (projects : List Project) (qg : List QualityGateEntry)
    (pre post : List Measurement) (entry : Measurement)
    (hmetric : entry.Metric ∉ ["ncloc", "coverage", "vulnerabilities", "bugs", "violations"]) :
    ∃ before after : List (Metric F),
      collectMeasurements L (New metricNames) ch ⟨projects, pre, qg⟩
        = Except.ok (ch ++ before)
      ∧ collectMeasurements L (New metricNames) [] ⟨projects, post, qg⟩ = Except.ok after
      ∧ collectMeasurements L (New metricNames) ch ⟨projects, pre ++ entry :: post, qg⟩
        = Except.ok (ch ++ before ++ after) := by
  obtain ⟨h1, h2, h3⟩ := collectMeasurements_split L metricNames ch projects qg pre post entry
  refine ⟨_, _, h1, h2, ?_⟩
  rw [h3]
  simp only [List.mem_cons, List.mem_singleton, List.not_mem_nil, or_false, not_or] at hmetric
  obtain ⟨h₁, h₂, h₃, h₄, h₅⟩ := hmetric
  simp [measurementOut, h₁, h₂, h₃, h₄, h₅]

/-- Witness for C10 at the entry `{Key: "proj1", Metric: "unknown_kind", Value: "7"}`
placed before an `ncloc` entry, with every kind enabled. -/
theorem C10_unmatched_metric_dropped_witness :
    "unknown_kind" ∉ ["ncloc", "coverage", "vulnerabilities", "bugs", "violations"]
    ∧ collectMeasurements decimalLib (New ["all"]) []
        ⟨[], [⟨"proj1", "unknown_kind", "7"⟩, ⟨"proj1", "ncloc", "1234"⟩], []⟩
      = Except.ok [Metric.mk (New ["all"]).linesOfCode ValueType.GaugeValue 1234 ["proj1"]] := by
  refine ⟨by decide, ?_⟩
  obtain ⟨before, after, h1, h2, h3⟩ :=
    C10_unmatched_metric_dropped decimalLib ["all"] [] [] [] []
      [⟨"proj1", "ncloc", "1234"⟩] ⟨"proj1", "unknown_kind", "7"⟩ (by decide)
  have hb : before = [] := by
    have := h1.symm.trans (collectMeasurements_New decimalLib ["all"] [] ⟨[], [], []⟩)
    simpa using this
  have ha : after = [Metric.mk (New ["all"]).linesOfCode ValueType.GaugeValue 1234 ["proj1"]] := by
    have := h2.symm.trans (collectMeasurements_New decimalLib ["all"] []
      ⟨[], [⟨"proj1", "ncloc", "1234"⟩], []⟩)
    rw [Except.ok.injEq] at this
    rw [this]
    decide
  rw [hb, ha] at h3
  simpa using h3


/-- C5: for every quality-gate sequence, `collectQualityGate` returns without a
panic and the label values of the metrics it sends are pairwise distinct; and in
one successful `Collect` call the metrics bound to the descriptor `qualityGate`
have pairwise distinct label values. -/
theorem C5_quality_gate_labels_distinct {F : Type} [Zero F] [One F] (L : Lib F)
    (metricNames : List String) (ch : Chan F) (stats : Stats) :
    (∃ out : List (Metric F),
      collectQualityGate L (New metricNames) ch stats = Except.ok (ch ++ out)
      ∧ (out.map (fun m => m.labelValues)).Nodup)
    ∧ (∃ sent : List (Metric F),
      Collect L (New metricNames) ch (stats, none) = Except.ok (ch ++ sent)
      ∧ ((sent.filter (fun m => decide (m.desc = (New metricNames).qualityGate))).map
          (fun m => m.labelValues)).Nodup) := by
  refine ⟨⟨_, collectQualityGate_New L metricNames ch stats,
    qualityGateOut_labels_nodup L _ _ _⟩, ?_⟩
  refine ⟨_, Collect_New_success L metricNames ch stats, ?_⟩
  rw [Collect_New_filter_qualityGate]
  split_ifs
  · exact qualityGateOut_labels_nodup L _ _ _
  · simp

/-- C6, the claim as stated fails: the two entries
`{Key: "org_gate", Organization: "org", Value: "bad"}` and
`{Key: "org_gate", Organization: "org", Value: "1"}` have the same trimmed key
`gate`; the first does not parse, and `collectQualityGate` sends a metric for the
second, with the second entry's value 1, while on the first entry alone it sends
nothing. -/
theorem C6_later_entry_sent_after_unparsable_first :
    trimmedKeyOf ⟨"org_gate", "org", "bad"⟩ = "gate"
    ∧ trimmedKeyOf ⟨"org_gate", "org", "1"⟩ = "gate"
    ∧ decimalLib.ParseFloat "bad" 64 = (0, some "invalid syntax")
    ∧ collectQualityGate decimalLib (New ["all"]) []
        ⟨[], [], [⟨"org_gate", "org", "bad"⟩, ⟨"org_gate", "org", "1"⟩]⟩
      = Except.ok [Metric.mk (New ["all"]).qualityGate ValueType.GaugeValue 1 ["gate"]]
    ∧ collectQualityGate decimalLib (New ["all"]) [] ⟨[], [], [⟨"org_gate", "org", "bad"⟩]⟩
      = Except.ok [] := by
  refine ⟨by decide, by decide, by decide, ?_, ?_⟩
  · rw [collectQualityGate_New, Except.ok.injEq]
    decide
  · rw [collectQualityGate_New, Except.ok.injEq]
    decide

/-- C6 as amended: for every quality-gate sequence `collectQualityGate` returns
without a panic, and among the entries whose `Value` parses the first occurrence
of a trimmed key wins. An entry whose trimmed key equals that of an earlier entry
whose `Value` parses is skipped: the pass sends the same metrics as on the
sequence without that entry. Every metric sent comes from an entry that parses
and that no earlier parsing entry shares its trimmed key with; its value is the
parsed `Value` of that entry and its label value the trimmed key. -/
theorem C6_first_parsable_occurrence_wins {F : Type} (L : Lib F)
    (metricNames : List String) (ch : Chan F) (projects : List Project)
    (measurements : List Measurement) (qg : List QualityGateEntry) :
    ∃ out : List (Metric F),
      collectQualityGate L (New metricNames) ch ⟨projects, measurements, qg⟩
        = Except.ok (ch ++ out)
      ∧ (∀ pre e post, qg = pre ++ e :: post →
          (∃ e' ∈ pre, trimmedKeyOf e' = trimmedKeyOf e
            ∧ (L.ParseFloat e'.Value 64).2 = none) →
          collectQualityGate L (New metricNames) ch ⟨projects, measurements, pre ++ post⟩
            = Except.ok (ch ++ out))
      ∧ (∀ m ∈ out, ∃ pre e post, qg = pre ++ e :: post
          ∧ (L.ParseFloat e.Value 64).2 = none
          ∧ (∀ e' ∈ pre, trimmedKeyOf e' = trimmedKeyOf e →
              (L.ParseFloat e'.Value 64).2 ≠ none)
          ∧ m = Metric.mk (New metricNames).qualityGate ValueType.GaugeValue
              (L.ParseFloat e.Value 64).1 [trimmedKeyOf e]) := by
  refine ⟨_, collectQualityGate_New L metricNames ch _, ?_, ?_⟩
  · intro pre e post hqg hearlier
    rw [collectQualityGate_New]
    simp only [hqg]
    rw [qualityGateOut_skip L _ pre post e [] (Or.inr hearlier)]
  · intro m hm
    obtain ⟨pre, e, post, hes, hp, _, hfirst, hmeq⟩ :=
      source_of_mem_qualityGateOut L _ _ _ m hm
    exact ⟨pre, e, post, hes, hp, hfirst, hmeq⟩

/-- C7: every metric `collectQualityGate` sends comes from an entry of the
sequence whose `Value` parses; its value is the parsed value, its descriptor is
`qualityGate`, and its single label value is the rest of `Key` after the leading
`Organization ++ "_"` when `Key` starts with that string (only that leading
occurrence is removed, the rest is kept whole) and `Key` itself otherwise. -/
theorem C7_quality_gate_label_is_trimmed_key {F : Type} (L : Lib F)
    (metricNames : List String) (ch : Chan F) (stats : Stats) :
    ∃ out : List (Metric F),
      collectQualityGate L (New metricNames) ch stats = Except.ok (ch ++ out)
      ∧ ∀ m ∈ out, ∃ e ∈ stats.QualityGate, ∃ (v : F) (label : String),
          L.ParseFloat e.Value 64 = (v, none)
          ∧ m = Metric.mk (New metricNames).qualityGate ValueType.GaugeValue v [label]
          ∧ (∀ rest : String, e.Key = e.Organization ++ "_" ++ rest → label = rest)
          ∧ ((¬ ∃ rest : String, e.Key = e.Organization ++ "_" ++ rest) → label = e.Key) := by
  refine ⟨_, collectQualityGate_New L metricNames ch stats, ?_⟩
  intro m hm
  obtain ⟨pre, e, post, hes, hp, _, _, hmeq⟩ := source_of_mem_qualityGateOut L _ _ _ m hm
  refine ⟨e, by rw [hes]; simp, (L.ParseFloat e.Value 64).1, trimmedKeyOf e, ?_, hmeq, ?_, ?_⟩
  · rw [← hp]
  · intro rest hkey
    unfold trimmedKeyOf
    rw [hkey, TrimPrefix_append]
  · intro hno
    unfold trimmedKeyOf
    exact TrimPrefix_of_not_append _ _ hno


/-- C11: for a quality-gate entry whose `Value` fails to parse, `collectQualityGate`
returns without a panic and sends no metric for the entry: it sends the same
metrics as on the sequence without the entry. The pass goes on after it: a later
entry that parses and whose trimmed key is not a label value of a metric sent
before it yields its metric, right after the metrics sent before it. -/
theorem C11_unparsable_quality_gate_skipped {F : Type} (L : Lib F)
    (metricNames : List String) (ch : Chan F) (projects : List Project)
    (measurements : List Measurement) (pre post : List QualityGateEntry)
    (e : QualityGateEntry) (hfail : (L.ParseFloat e.Value 64).2 ≠ none) :
    ∃ out : List (Metric F),
      collectQualityGate L (New metricNames) ch ⟨projects, measurements, pre ++ e :: post⟩
        = Except.ok (ch ++ out)
      ∧ collectQualityGate L (New metricNames) ch ⟨projects, measurements, pre ++ post⟩
        = Except.ok (ch ++ out)
      ∧ ∀ mid e₂ tail, post = mid ++ e₂ :: tail →
          (L.ParseFloat e₂.Value 64).2 = none →
          ∃ before : List (Metric F),
            collectQualityGate L (New metricNames) ch
                ⟨projects, measurements, pre ++ e :: mid⟩ = Except.ok (ch ++ before)
            ∧ ([trimmedKeyOf e₂] ∉ before.map (fun m => m.labelValues) →
                ∃ after : List (Metric F),
                  out = before
                    ++ Metric.mk (New metricNames).qualityGate ValueType.GaugeValue
                        (L.ParseFloat e₂.Value 64).1 [trimmedKeyOf e₂] :: after) := by
  refine ⟨_, collectQualityGate_New L metricNames ch _, ?_, ?_⟩
  · rw [collectQualityGate_New]
    simp only
    rw [qualityGateOut_unparsable_skip L _ pre post e [] hfail]
  · intro mid e₂ tail hpost hparse
    refine ⟨_, collectQualityGate_New L metricNames ch _, ?_⟩
    intro hnot
    simp only at hnot ⊢
    obtain ⟨seen', hmem, heq⟩ :=
      qualityGateOut_append L (New metricNames) (pre ++ e :: mid) (e₂ :: tail) []
    have hsplit : pre ++ e :: post = (pre ++ e :: mid) ++ e₂ :: tail := by
      rw [hpost]; simp
    have hns : trimmedKeyOf e₂ ∉ seen' := by
      intro hin
      rcases (hmem _).mp hin with h | h
      · simp at h
      · exact hnot h
    refine ⟨qualityGateOut L (New metricNames) (trimmedKeyOf e₂ :: seen') tail, ?_⟩
    rw [hsplit, heq]
    congr 1
    rw [qualityGateOut]
    simp [hns, hparse]

/-- Witness for C11 at the entries `{Key: "org_a", Organization: "org", Value: "bad"}`
and, after it, `{Key: "org_b", Organization: "org", Value: "2"}`. -/
theorem C11_unparsable_quality_gate_skipped_witness :
    (decimalLib.ParseFloat "bad" 64).2 ≠ none
    ∧ collectQualityGate decimalLib (New ["all"]) []
        ⟨[], [], [⟨"org_a", "org", "bad"⟩, ⟨"org_b", "org", "2"⟩]⟩
      = Except.ok [Metric.mk (New ["all"]).qualityGate ValueType.GaugeValue 2 ["b"]] := by
  have hf : (decimalLib.ParseFloat "bad" 64).2 ≠ none := by decide
  refine ⟨hf, ?_⟩
  obtain ⟨out, h1, h2, _⟩ :=
    C11_unparsable_quality_gate_skipped decimalLib ["all"] [] [] [] []
      [⟨"org_b", "org", "2"⟩] ⟨"org_a", "org", "bad"⟩ hf
  have hout : out = [Metric.mk (New ["all"]).qualityGate ValueType.GaugeValue 2 ["b"]] := by
    have := h2.symm.trans (collectQualityGate_New decimalLib ["all"] []
      ⟨[], [], [⟨"org_b", "org", "2"⟩]⟩)
    rw [Except.ok.injEq] at this
    simp only [List.nil_append] at this
    rw [this]
    decide
  rw [hout] at h1
  simpa using h1


/-- C12: when `projectInfo` is enabled and the fetch succeeds, the metrics bound to
the descriptor `projectInfo` that `Collect` sends are, in snapshot order, exactly
one per entry of `Stats.Projects`, each with value 1 and the label values `Name`,
`Qualifier`, `Key`, `Organization` of that entry; their number is the length of
`Stats.Projects`. -/
theorem C12_project_info_one_per_project {F : Type} [Zero F] [One F] (L : Lib F)
    (metricNames : List String) (ch : Chan F) (stats : Stats)
    (henabled : (New metricNames).enabledMetrics.index "projectInfo" = true) :
    ∃ sent : List (Metric F),
      Collect L (New metricNames) ch (stats, none) = Except.ok (ch ++ sent)
      ∧ sent.filter (fun m => decide (m.desc = (New metricNames).projectInfo))
          = stats.Projects.map (fun project =>
              Metric.mk (New metricNames).projectInfo ValueType.GaugeValue 1
                [project.Name, project.Qualifier, project.Key, project.Organization])
      ∧ (sent.filter (fun m => decide (m.desc = (New metricNames).projectInfo))).length
          = stats.Projects.length := by
  refine ⟨_, Collect_New_success L metricNames ch stats, ?_, ?_⟩
  · rw [Collect_New_filter_projectInfo, if_pos henabled]
    rfl
  · rw [Collect_New_filter_projectInfo, if_pos henabled, List.length_map]

/-- Witness for C12 at a snapshot that lists the same project twice, with only
`projectInfo` enabled: two equal metrics are sent for it. -/
theorem C12_project_info_one_per_project_witness :
    (New ["projectInfo"]).enabledMetrics.index "projectInfo" = true
    ∧ ∃ sent : List (Metric ℚ),
      Collect decimalLib (New ["projectInfo"]) []
          (⟨[⟨"n", "TRK", "k", "org"⟩, ⟨"n", "TRK", "k", "org"⟩], [], []⟩, none)
        = Except.ok sent
      ∧ sent.filter (fun m => decide (m.desc = (New ["projectInfo"]).projectInfo))
          = [Metric.mk (New ["projectInfo"]).projectInfo ValueType.GaugeValue 1
              ["n", "TRK", "k", "org"],
             Metric.mk (New ["projectInfo"]).projectInfo ValueType.GaugeValue 1
              ["n", "TRK", "k", "org"]] := by
  refine ⟨by decide, ?_⟩
  obtain ⟨sent, h1, h2, _⟩ :=
    C12_project_info_one_per_project decimalLib ["projectInfo"] []
      ⟨[⟨"n", "TRK", "k", "org"⟩, ⟨"n", "TRK", "k", "org"⟩], [], []⟩ (by decide)
  exact ⟨sent, by simpa using h1, by simpa using h2⟩

/-- C13: for every outcome of the fetch, every snapshot and every list of metric
names, `Collect` returns without a panic and every metric it sends that is not
bound to the descriptor `up` is bound to the descriptor of a kind that is enabled;
and for each of the seven kinds, when the kind is disabled no metric sent is bound
to its descriptor. -/
theorem C13_only_enabled_kinds_emitted {F : Type} [Zero F] [One F] (L : Lib F)
    (metricNames : List String) (ch : Chan F) (r : Stats × Option String) :
    ∃ sent : List (Metric F),
      Collect L (New metricNames) ch r = Except.ok (ch ++ sent)
      ∧ (∀ m ∈ sent, m.desc ≠ (New metricNames).up →
          ∃ row ∈ [("projectInfo", (New metricNames).projectInfo),
              ("linesOfCode", (New metricNames).linesOfCode),
              ("codeCoverage", (New metricNames).codeCoverage),
              ("vulnerabilities", (New metricNames).vulnerabilities),
              ("bugs", (New metricNames).bugs),
              ("codeSmells", (New metricNames).codeSmells),
              ("qualityGate", (New metricNames).qualityGate)],
            m.desc = row.2 ∧ (New metricNames).enabledMetrics.index row.1 = true)
      ∧ (∀ row ∈ [("projectInfo", (New metricNames).projectInfo),
              ("linesOfCode", (New metricNames).linesOfCode),
              ("codeCoverage", (New metricNames).codeCoverage),
              ("vulnerabilities", (New metricNames).vulnerabilities),
              ("bugs", (New metricNames).bugs),
              ("codeSmells", (New metricNames).codeSmells),
              ("qualityGate", (New metricNames).qualityGate)],
          (New metricNames).enabledMetrics.index row.1 = false →
            ∀ m ∈ sent, m.desc ≠ row.2) := by
  have key : ∃ sent : List (Metric F),
      Collect L (New metricNames) ch r = Except.ok (ch ++ sent)
      ∧ ∀ m ∈ sent, m.desc = (New metricNames).up ∨
          ∃ row ∈ [("projectInfo", (New metricNames).projectInfo),
              ("linesOfCode", (New metricNames).linesOfCode),
              ("codeCoverage", (New metricNames).codeCoverage),
              ("vulnerabilities", (New metricNames).vulnerabilities),
              ("bugs", (New metricNames).bugs),
              ("codeSmells", (New metricNames).codeSmells),
              ("qualityGate", (New metricNames).qualityGate)],
            m.desc = row.2 ∧ (New metricNames).enabledMetrics.index row.1 = true := by
    obtain ⟨stats, err⟩ := r
    cases err with
    | some e =>
      refine ⟨_, Collect_New_failure L metricNames ch stats e, ?_⟩
      intro m hm
      left
      simp only [List.mem_singleton] at hm
      rw [hm]
    | none =>
      refine ⟨_, Collect_New_success L metricNames ch stats, ?_⟩
      intro m hm
      rcases List.mem_cons.mp hm with hm | hm
      · left; rw [hm]
      right
      simp only [List.mem_append] at hm
      rcases hm with hm | hm | hm
      · split_ifs at hm with hp
        · obtain ⟨p, _, rfl⟩ := List.mem_map.mp hm
          exact ⟨("projectInfo", (New metricNames).projectInfo), by simp, rfl, hp⟩
        · simp at hm
      · obtain ⟨e, _, he⟩ := List.mem_flatMap.mp hm
        obtain ⟨row, hrow, hd, hen⟩ := enabled_of_mem_measurementOut L _ e m he
        refine ⟨row, ?_, hd, hen⟩
        simp only [List.mem_cons, List.mem_singleton, List.not_mem_nil, or_false] at hrow ⊢
        tauto
      · split_ifs at hm with hq
        · exact ⟨("qualityGate", (New metricNames).qualityGate), by simp,
            desc_of_mem_qualityGateOut L _ _ _ m hm, hq⟩
        · simp at hm
  obtain ⟨sent, hcollect, hsent⟩ := key
  refine ⟨sent, hcollect, ?_, ?_⟩
  · intro m hm hne
    rcases hsent m hm with h | h
    · exact absurd h hne
    · exact h
  · intro row hrow hdis m hm hdesc
    rcases hsent m hm with h | ⟨row', hrow', hd', hen'⟩
    · rw [hdesc] at h
      simp only [List.mem_cons, List.mem_singleton, List.not_mem_nil, or_false] at hrow
      rcases hrow with rfl | rfl | rfl | rfl | rfl | rfl | rfl <;>
        simp [NewDesc] at h
    · rw [hdesc] at hd'
      simp only [List.mem_cons, List.mem_singleton, List.not_mem_nil, or_false] at hrow hrow'
      rcases hrow with rfl | rfl | rfl | rfl | rfl | rfl | rfl <;>
        rcases hrow' with rfl | rfl | rfl | rfl | rfl | rfl | rfl <;>
        first
          | (rw [hen'] at hdis; exact Bool.noConfusion hdis)
          | (simp [NewDesc] at hd')

/-- C16: for every outcome of the fetch, every snapshot and every list of metric
names, `Collect` returns without a panic, so no call of `MustNewConstMetric` fails,
and each metric it sends carries as many label values as its descriptor has label
names; the descriptors built in `New` have 0 label names for `up`, 4 for
`projectInfo` and 1 for each measurement kind and for `qualityGate`. -/
theorem C16_label_arity_matches {F : Type} [Zero F] [One F] (L : Lib F)
    (metricNames : List String) (ch : Chan F) (r : Stats × Option String) :
    (∃ sent : List (Metric F),
      Collect L (New metricNames) ch r = Except.ok (ch ++ sent)
      ∧ ∀ m ∈ sent, m.labelValues.length = m.desc.variableLabels.length)
    ∧ (New metricNames).up.variableLabels.length = 0
    ∧ (New metricNames).projectInfo.variableLabels.length = 4
    ∧ (New metricNames).linesOfCode.variableLabels.length = 1
    ∧ (New metricNames).codeCoverage.variableLabels.length = 1
    ∧ (New metricNames).vulnerabilities.variableLabels.length = 1
    ∧ (New metricNames).bugs.variableLabels.length = 1
    ∧ (New metricNames).codeSmells.variableLabels.length = 1
    ∧ (New metricNames).qualityGate.variableLabels.length = 1 := by
  refine ⟨?_, rfl, rfl, rfl, rfl, rfl, rfl, rfl, rfl⟩
  obtain ⟨stats, err⟩ := r
  cases err with
  | some e =>
    refine ⟨_, Collect_New_failure L metricNames ch stats e, ?_⟩
    intro m hm
    simp only [List.mem_singleton] at hm
    rw [hm]
    rfl
  | none =>
    refine ⟨_, Collect_New_success L metricNames ch stats, ?_⟩
    intro m hm
    rcases List.mem_cons.mp hm with hm | hm
    · rw [hm]; rfl
    simp only [List.mem_append] at hm
    rcases hm with hm | hm | hm
    · split_ifs at hm
      · obtain ⟨p, _, rfl⟩ := List.mem_map.mp hm
        rfl
      · simp at hm
    · obtain ⟨e, _, he⟩ := List.mem_flatMap.mp hm
      exact arity_of_mem_measurementOut L metricNames e m he
    · split_ifs at hm
      · obtain ⟨_, e, _, _, _, _, _, hmeq⟩ := source_of_mem_qualityGateOut L _ _ _ m hm
        rw [hmeq]
        rfl
      · simp at hm


/-- C14: with the collector behind the receiver pointer as state, `Collect` leaves
the collector as it found it. For every collector, whenever `Collect` returns, the
collector after the call is the collector before it. For a collector built by `New`,
a call returns the same collector and appends to the channel the metrics `sent`
that `Collect` sends, and two successive calls that get the same outcome of the
fetch append `sent` twice: the second call sends the same sequence as the first.
The same holds of the quality-gate pass alone, whose dedup map is made anew in each
call: run twice, it sends its metrics twice. -/
theorem C14_collect_leaves_collector_unchanged {F : Type} [Zero F] [One F] (L : Lib F)
    (metricNames : List String) (ch : Chan F) (r : Stats × Option String) :
    (∀ (c : Collector) (st : Collector × Chan F),
      CollectSt L (c, ch) r = Except.ok st → st.1 = c)
    ∧ (∃ sent : List (Metric F),
      Collect L (New metricNames) ch r = Except.ok (ch ++ sent)
      ∧ CollectSt L (New metricNames, ch) r = Except.ok (New metricNames, ch ++ sent)
      ∧ (CollectSt L (New metricNames, ch) r >>= fun st => CollectSt L st r)
          = Except.ok (New metricNames, ch ++ sent ++ sent))
    ∧ (∃ out : List (Metric F),
      collectQualityGateSt L (New metricNames, ch) r.1
          = Except.ok (New metricNames, ch ++ out)
      ∧ (collectQualityGateSt L (New metricNames, ch) r.1
            >>= fun st => collectQualityGateSt L st r.1)
          = Except.ok (New metricNames, ch ++ out ++ out)) := by
  refine ⟨?_, ?_, ?_⟩
  · intro c st hst
    rw [CollectSt_eq] at hst
    cases hc : Collect L c ch r with
    | error e =>
      rw [hc] at hst
      exact Except.noConfusion hst
    | ok ch₁ =>
      rw [hc] at hst
      have hst' : (c, ch₁) = st := Except.ok.inj hst
      rw [← hst']
  · obtain ⟨stats, err⟩ := r
    cases err with
    | some e =>
      refine ⟨_, Collect_New_failure L metricNames ch stats e,
        CollectSt_New_failure L metricNames ch stats e, ?_⟩
      rw [CollectSt_New_failure]
      show CollectSt L (New metricNames, _) (stats, some e) = _
      rw [CollectSt_New_failure]
    | none =>
      refine ⟨_, Collect_New_success L metricNames ch stats,
        CollectSt_New_success L metricNames ch stats, ?_⟩
      rw [CollectSt_New_success]
      show CollectSt L (New metricNames, _) (stats, none) = _
      rw [CollectSt_New_success]
  · refine ⟨_, collectQualityGateSt_New L metricNames ch r.1, ?_⟩
    rw [collectQualityGateSt_New]
    show collectQualityGateSt L (New metricNames, _) r.1 = _
    rw [collectQualityGateSt_New]

/-- Witness for C14 at the collector `New ["all"]` and a successful fetch with the
one quality-gate entry `{Key: "org_gate", Organization: "org", Value: "1"}`: the
second of two successive calls sends `up` and the label `gate` again, and the
collector is the same after both. -/
theorem C14_collect_leaves_collector_unchanged_witness :
    (CollectSt decimalLib (New ["all"], []) (⟨[], [], [⟨"org_gate", "org", "1"⟩]⟩, none)
        >>= fun st => CollectSt decimalLib st (⟨[], [], [⟨"org_gate", "org", "1"⟩]⟩, none))
      = Except.ok (New ["all"],
          [Metric.mk (New ["all"]).up ValueType.GaugeValue 1 [],
           Metric.mk (New ["all"]).qualityGate ValueType.GaugeValue 1 ["gate"],
           Metric.mk (New ["all"]).up ValueType.GaugeValue 1 [],
           Metric.mk (New ["all"]).qualityGate ValueType.GaugeValue 1 ["gate"]]) := by
  obtain ⟨_, ⟨sent, h1, _, h3⟩, _⟩ :=
    C14_collect_leaves_collector_unchanged decimalLib ["all"] []
      (⟨[], [], [⟨"org_gate", "org", "1"⟩]⟩, none)
  have hsent : sent = [Metric.mk (New ["all"]).up ValueType.GaugeValue 1 [],
      Metric.mk (New ["all"]).qualityGate ValueType.GaugeValue 1 ["gate"]] := by
    have := h1.symm.trans (Collect_New_success decimalLib ["all"] []
      ⟨[], [], [⟨"org_gate", "org", "1"⟩]⟩)
    rw [Except.ok.injEq] at this
    simp only [List.nil_append] at this
    rw [this]
    decide
  rw [hsent] at h3
  simpa using h3

/-- C15 (the code departs from the claim): `Describe` sends the seven descriptors
`up`, `projectInfo`, `linesOfCode`, `codeCoverage`, `bugs`, `vulnerabilities`,
`codeSmells` and does not send `qualityGate`; on a snapshot with the one quality-gate
entry `{Key: "org_gate", Organization: "org", Value: "1"}` and every kind enabled,
`Collect` sends a metric bound to the descriptor `qualityGate`. -/
theorem C15_qualityGate_descriptor_not_described :
    Describe (New ["all"]) []
      = [(New ["all"]).up, (New ["all"]).projectInfo, (New ["all"]).linesOfCode,
         (New ["all"]).codeCoverage, (New ["all"]).bugs, (New ["all"]).vulnerabilities,
         (New ["all"]).codeSmells]
    ∧ (New ["all"]).qualityGate ∉ Describe (New ["all"]) []
    ∧ Collect decimalLib (New ["all"]) [] (⟨[], [], [⟨"org_gate", "org", "1"⟩]⟩, none)
      = Except.ok [Metric.mk (New ["all"]).up ValueType.GaugeValue 1 [],
          Metric.mk (New ["all"]).qualityGate ValueType.GaugeValue 1 ["gate"]] := by
  refine ⟨rfl, by decide, ?_⟩
  rw [Collect_New_success, Except.ok.injEq]
  decide

/-- C17: the default of `metricsName` is `"all"` when `METRICS_NAME` is not set;
`strings.Split("all", ",")` is the one-element list `["all"]` and the collector
`main` builds from it has each of the eight known kinds enabled. For a
configuration string other than `"all"`, a kind is enabled in the collector `main`
builds if and only if its name is equal to one of the fields `strings.Split` returns;
the fields are compared as they are, without trimming. -/
theorem C17_main_configuration_string (MetricsName : String) (h : MetricsName ≠ "all") :
    (getDefaultEnv (fun _ => "") "METRICS_NAME" "all" = "all"
      ∧ Split "all" "," = ["all"]
      ∧ (main_coll "all").enabledMetrics.index "up" = true
      ∧ (main_coll "all").enabledMetrics.index "projectInfo" = true
      ∧ (main_coll "all").enabledMetrics.index "linesOfCode" = true
      ∧ (main_coll "all").enabledMetrics.index "codeCoverage" = true
      ∧ (main_coll "all").enabledMetrics.index "vulnerabilities" = true
      ∧ (main_coll "all").enabledMetrics.index "bugs" = true
      ∧ (main_coll "all").enabledMetrics.index "codeSmells" = true
      ∧ (main_coll "all").enabledMetrics.index "qualityGate" = true)
    ∧ ∀ k : String,
        (main_coll MetricsName).enabledMetrics.index k = true ↔ k ∈ Split MetricsName "," := by
  refine ⟨by decide, ?_⟩
  intro k
  have hne : Split MetricsName "," ≠ ["all"] := by
    intro hs
    exact h (Split_comma_singleton MetricsName "all" hs).symm
  exact New_index_explicit _ hne k

/-- Witness for C17 at the configuration string `"up, bugs"`: its fields are `"up"`
and `" bugs"`, so `up` is enabled and `bugs` is not. -/
theorem C17_main_configuration_string_witness :
    "up, bugs" ≠ "all"
    ∧ Split "up, bugs" "," = ["up", " bugs"]
    ∧ (main_coll "up, bugs").enabledMetrics.index "up" = true
    ∧ (main_coll "up, bugs").enabledMetrics.index "bugs" = false := by
  have hw := (C17_main_configuration_string "up, bugs" (by decide)).2
  refine ⟨by decide, by decide, (hw "up").mpr (by decide), ?_⟩
  have hb := (hw "bugs").not.mpr (by decide)
  simpa using hb

/-- C18: in `collectQualityGate` the key of the dedup map is the string of the
descriptor `qualityGate`, a colon and the trimmed key; for a fixed collector two
trimmed keys with the same map key are equal, and the pass returns the same result,
hence sends the same metrics, as the pass that keys the dedup map by the trimmed
key alone. -/
theorem C18_dedup_key_refines_trimmed_key {F : Type} (L : Lib F)
    (metricNames : List String) (ch : Chan F) (stats : Stats) :
    (∀ k k' : String,
      L.DescString (New metricNames).qualityGate ++ ":" ++ k
        = L.DescString (New metricNames).qualityGate ++ ":" ++ k' → k = k')
    ∧ collectQualityGate L (New metricNames) ch stats
        = collectQualityGateByTrimmedKey L (New metricNames) ch stats
    ∧ ∃ out : List (Metric F),
        collectQualityGate L (New metricNames) ch stats = Except.ok (ch ++ out) := by
  refine ⟨fun k k' hk => metricKey_injective _ k k' hk, ?_, _,
    collectQualityGate_New L metricNames ch stats⟩
  rw [collectQualityGate_New, collectQualityGateByTrimmedKey_New]

end SonarcloudExporter
